import Mathlib

/-!
Process startup of the KUDOS kernel (`kudos/proc/process.c`)

A shallow embedding of `setup_new_process` and `process_start`, together
with the kernel services they call, and the properties of the process
image they build.

The two functions are translated statement by statement.  The services they
call (file system, ELF parser, frame allocator, page tables, interrupt
control, thread table) live in other modules of the kernel; each of them is
given here as a small executable definition, marked as modelled from the
specification.
-/

set_option autoImplicit false
set_option linter.unusedVariables false

namespace Kudos

/-! ## Configuration constants and machine integers -/

/-- Modelled from the spec: the configuration constants consumed by the
module (page size, user stack top and page count, kernel/user split, page
flag bits).  Their defining headers are not part of this development, so
they are parameters; the page size is positive. -/
structure Config where
  PAGE_SIZE : Nat
  PAGE_SIZE_pos : 0 < PAGE_SIZE
  USERLAND_STACK_TOP : Nat
  CONFIG_USERLAND_STACK_SIZE : Int
  VMM_KERNEL_SPACE : Nat
  PAGE_USER : Nat
  PAGE_WRITE : Nat
  sizeof_context_t : Nat

/-- Conversion of an integer value to the 32 bit signed type int. -/
def toInt32 (x : Int) : Int := (x + 2147483648) % 4294967296 - 2147483648

/-- Conversion of an integer value to the 64 bit unsigned type virtaddr_t. -/
def toVirt (x : Int) : Nat := (x % 18446744073709551616).toNat

/-- The macro MIN on int operands. -/
def MIN (a b : Int) : Int := if a < b then a else b

/-- Modelled from the spec: x & PAGE_SIZE_MASK, the page-aligned address of
the page that contains x. -/
def page_mask (cfg : Config) (x : Nat) : Nat := x / cfg.PAGE_SIZE * cfg.PAGE_SIZE

/-! ## Data model -/

/-- A page table entry: the physical frame and the flag bits. -/
structure pte_t where
  frame : Nat
  flags : Nat
deriving DecidableEq, Repr

/-- Modelled from the spec: the saved context of a thread, with its program
counter, stack pointer and the two references to its address space. -/
structure context_t where
  ip : Nat
  sp : Nat
  pml4 : Nat
  virt_memory : Nat
deriving DecidableEq, Repr

/-- Modelled from the spec: an entry of the thread table. -/
structure thread_table_t where
  context : context_t
  pagetable : Nat
deriving DecidableEq, Repr

/-- The result of the ELF header parser: entry point and the geometry of the
read-only and the read-write segment. -/
structure elf_info_t where
  entry_point : Nat
  ro_location : Nat
  ro_size : Nat
  ro_pages : Nat
  ro_vaddr : Nat
  rw_location : Nat
  rw_size : Nat
  rw_pages : Nat
  rw_vaddr : Nat
deriving DecidableEq, Repr

/-- The contents of a file: its size and the byte at each offset below it. -/
structure file_data where
  size : Nat
  byte : Nat → Nat

/-- An open file: its contents and the current seek position. -/
structure openfile_state where
  content : file_data
  pos : Nat

/-- Calls of kernel services, in the order they are made. -/
inductive Event where
  | vfs_open (pathname : String) (file : Int)
  | elf_parse_header (file : Int) (res : Int)
  | vm_create_pagetable (thread : Nat) (pagetable : Nat)
  | interrupt_disable
  | process_set_pagetable (pagetable : Nat)
  | physmem_allocblock (phys_page : Nat)
  | vm_map (pagetable : Nat) (phys_page : Nat) (virt_page : Nat) (flags : Nat)
  | memoryset (virt_page : Nat) (value : Nat) (size : Nat)
  | vfs_seek (file : Int) (seek_position : Int)
  | vfs_read (file : Int) (buffer : Nat) (bufsize : Int)
  | vfs_close (file : Int)
  | interrupt_set_state (status : Bool)
  | vmm_setcr3 (root : Nat)
  | thread_goto_userland (user_context : context_t)
deriving DecidableEq, Repr

/-- What another thread or an interrupt handler can observe of the running
thread: whether interrupts are enabled, the live page table root, and the
address space recorded in the running thread's own table entry. -/
structure Snapshot where
  interrupts : Bool
  cr3 : Nat
  recorded : Nat
deriving DecidableEq, Repr

/-- The kernel state the module reads and writes. -/
structure KState where
  /-- the running thread -/
  current_thread : Nat
  /-- the thread table -/
  thread_table : Nat → thread_table_t
  /-- the live page table root of the running thread -/
  cr3 : Nat
  /-- interrupt status: true when interrupts are enabled -/
  interrupts : Bool
  /-- page tables: root, then virtual page number, to entry -/
  tables : Nat → Nat → Option pte_t
  /-- next page table root handed out by vm_create_pagetable -/
  next_table : Nat
  /-- frame allocator bitmap: true for a free frame number -/
  physmem_free : Nat → Bool
  /-- number of frames the allocator manages -/
  physmem_size : Nat
  /-- physical memory: frame address, then offset in the frame, to byte -/
  mem : Nat → Nat → Nat
  /-- the files of the file system, by path -/
  vfs_files : String → Option file_data
  /-- what the ELF parser makes of a file's bytes -/
  elf_format : file_data → Option elf_info_t
  /-- the open files, by handle -/
  openfiles : Int → Option openfile_state
  /-- next handle handed out by vfs_open -/
  vfs_next : Nat
  /-- service calls made so far, oldest first -/
  log : List Event
  /-- observable snapshots after every statement so far, oldest first -/
  hist : List Snapshot

/-- The observable part of a state. -/
def snapshot (s : KState) : Snapshot :=
  ⟨s.interrupts, s.cr3, (s.thread_table s.current_thread).context.virt_memory⟩

/-- Record the observable state reached after a statement. -/
def tick (s : KState) : KState := { s with hist := s.hist ++ [snapshot s] }

/-- Record a service call and the observable state after it. -/
def emit (e : Event) (s : KState) : KState := tick { s with log := s.log ++ [e] }

/-! ## Kernel services -/

/-- Modelled from the spec: the running thread. -/
def thread_get_current_thread (s : KState) : Nat := s.current_thread

/-- Modelled from the spec: open(path) gives a fresh non-negative handle
positioned at the start of the file, or a negative error. -/
def vfs_open (pathname : String) (s : KState) : Int × KState :=
  match s.vfs_files pathname with
  | none => (-1, emit (Event.vfs_open pathname (-1)) s)
  | some data =>
    ((s.vfs_next : Int),
      emit (Event.vfs_open pathname s.vfs_next)
        { s with
          openfiles := fun h =>
            if h = (s.vfs_next : Int) then some ⟨data, 0⟩ else s.openfiles h
          vfs_next := s.vfs_next + 1 })

/-- Modelled from the spec: close(handle) releases the handle. -/
def vfs_close (file : Int) (s : KState) : KState :=
  emit (Event.vfs_close file)
    { s with openfiles := fun h => if h = file then none else s.openfiles h }

/-- Modelled from the spec: seek(handle, offset) sets the position of an
open file; the result is VFS_OK (0) or a negative error. -/
def vfs_seek (file : Int) (seek_position : Int) (s : KState) : Int × KState :=
  match s.openfiles file with
  | none => (-1, emit (Event.vfs_seek file seek_position) s)
  | some f =>
    if seek_position < 0 then (-1, emit (Event.vfs_seek file seek_position) s)
    else
      (0, emit (Event.vfs_seek file seek_position)
        { s with
          openfiles := fun h =>
            if h = file then some ⟨f.content, seek_position.toNat⟩ else s.openfiles h })

/-- Modelled from the spec: parse(file_handle) gives the segment geometry
and the entry address, or a negative result on a parse error. -/
def elf_parse_header (file : Int) (s : KState) : Int × elf_info_t × KState :=
  match (s.openfiles file).bind (fun f => s.elf_format f.content) with
  | none => (-1, ⟨0, 0, 0, 0, 0, 0, 0, 0, 0⟩, emit (Event.elf_parse_header file (-1)) s)
  | some elf => (0, elf, emit (Event.elf_parse_header file 0) s)

/-- Modelled from the spec: alloc_frame() hands out the first free frame and
marks it used; zero signals exhaustion. -/
def physmem_allocblock (cfg : Config) (s : KState) : Nat × KState :=
  match (List.range s.physmem_size).find? (fun n => s.physmem_free n) with
  | none => (0, emit (Event.physmem_allocblock 0) s)
  | some n =>
    (n * cfg.PAGE_SIZE,
      emit (Event.physmem_allocblock (n * cfg.PAGE_SIZE))
        { s with physmem_free := fun m => if m = n then false else s.physmem_free m })

/-- Modelled from the spec: create_address_space(owner) gives a new, empty
address space. -/
def vm_create_pagetable (thread : Nat) (s : KState) : Nat × KState :=
  (s.next_table,
    emit (Event.vm_create_pagetable thread s.next_table)
      { s with
        tables := fun r => if r = s.next_table then (fun _ => none) else s.tables r
        next_table := s.next_table + 1 })

/-- Modelled from the spec: map(space, frame, vaddr, flags) enters the frame
for the page of vaddr, replacing an earlier entry of that page. -/
def vm_map (cfg : Config) (pagetable phys_page virt_page flags : Nat) (s : KState) : KState :=
  emit (Event.vm_map pagetable phys_page virt_page flags)
    { s with
      tables := fun r p =>
        if r = pagetable ∧ p = virt_page / cfg.PAGE_SIZE then some ⟨phys_page, flags⟩
        else s.tables r p }

/-- Modelled from the spec: install(space) makes the space the live mapping
of the calling hardware thread. -/
def process_set_pagetable (pagetable : Nat) (s : KState) : KState :=
  emit (Event.process_set_pagetable pagetable) { s with cr3 := pagetable }

/-- Modelled from the spec: switch the live address-space-root register. -/
def vmm_setcr3 (root : Nat) (s : KState) : KState :=
  emit (Event.vmm_setcr3 root) { s with cr3 := root }

/-- Modelled from the spec: mask interrupts, giving back the prior state. -/
def _interrupt_disable (s : KState) : Bool × KState :=
  (s.interrupts, emit Event.interrupt_disable { s with interrupts := false })

/-- Modelled from the spec: restore exactly the given mask state. -/
def _interrupt_set_state (status : Bool) (s : KState) : KState :=
  emit (Event.interrupt_set_state status) { s with interrupts := status }

/-- The byte at a virtual address in the address space of a root, when the
page is mapped. -/
def vm_load (cfg : Config) (s : KState) (root vaddr : Nat) : Option Nat :=
  (s.tables root (vaddr / cfg.PAGE_SIZE)).map
    (fun e => s.mem e.frame (vaddr % cfg.PAGE_SIZE))

/-- The virtual page numbers touched by the bytes a, ..., a + len - 1. -/
def page_span (cfg : Config) (a len : Nat) : List Nat :=
  if len = 0 then []
  else (List.range ((a + len - 1) / cfg.PAGE_SIZE - a / cfg.PAGE_SIZE + 1)).map
    (fun j => a / cfg.PAGE_SIZE + j)

/-- Physical memory after storing val 0, ..., val (n - 1) at the virtual
addresses a, ..., a + n - 1 through a page table. -/
def store_mem (cfg : Config) (tbl : Nat → Option pte_t) (a : Nat) (val : Nat → Nat) :
    Nat → (Nat → Nat → Nat) → Nat → Nat → Nat
  | 0, mem => mem
  | n + 1, mem =>
    match tbl ((a + n) / cfg.PAGE_SIZE) with
    | some e => fun f o =>
        if f = e.frame ∧ o = (a + n) % cfg.PAGE_SIZE then val n
        else store_mem cfg tbl a val n mem f o
    | none => store_mem cfg tbl a val n mem

/-- Modelled from the spec: a kernel store of len bytes at a virtual address
goes through the live page table; touching an unmapped page is a fault,
from which the kernel does not return (none). -/
def store_bytes (cfg : Config) (a len : Nat) (val : Nat → Nat) (s : KState) : Option KState :=
  if (page_span cfg a len).all (fun p => (s.tables s.cr3 p).isSome) then
    some { s with mem := store_mem cfg (s.tables s.cr3) a val len s.mem }
  else none

/-- Modelled from the spec: fill size bytes at a virtual address with a value. -/
def memoryset (cfg : Config) (virt_page value size : Nat) (s : KState) : Option KState :=
  (store_bytes cfg virt_page size (fun _ => value) s).map
    (emit (Event.memoryset virt_page value size))

/-- Modelled from the spec: read(handle, buffer, len) copies the bytes at the
current position into the buffer, as many as the file still has, advances the
position and gives the number of bytes read, or a negative error. -/
def vfs_read (cfg : Config) (file : Int) (buffer : Nat) (bufsize : Int) (s : KState) :
    Option (Int × KState) :=
  match s.openfiles file with
  | none => some (-1, emit (Event.vfs_read file buffer bufsize) s)
  | some f =>
    let n := min bufsize.toNat (f.content.size - f.pos)
    (store_bytes cfg buffer n (fun k => f.content.byte (f.pos + k)) s).map
      (fun s1 =>
        ((n : Int),
          emit (Event.vfs_read file buffer bufsize)
            { s1 with
              openfiles := fun h =>
                if h = file then some ⟨f.content, f.pos + n⟩ else s1.openfiles h }))

/-! ## The module -/

/-- A counted loop: for (i = start; i < start + n; i++) body. -/
def for_loop (body : Nat → KState → Option KState) : Nat → Nat → KState → Option KState
  | 0, _, s => some s
  | n + 1, i, s =>
    match body i s with
    | none => none
    | some s1 => for_loop body n (i + 1) s1

/-- Virtual address of stack page i (process.c line 79). -/
def stack_vaddr (cfg : Config) (i : Nat) : Nat :=
  toVirt ((page_mask cfg cfg.USERLAND_STACK_TOP : Int) - (i : Int) * (cfg.PAGE_SIZE : Int))

/-- Virtual address of page i of a segment at vaddr (lines 93 and 114). -/
def seg_vaddr (cfg : Config) (vaddr i : Nat) : Nat :=
  toVirt ((vaddr : Int) + (i : Int) * (cfg.PAGE_SIZE : Int))

/-- Body of the stack loop (lines 77-83).  A failed KERNEL_ASSERT halts the
kernel: none. -/
def stack_page (cfg : Config) (pagetable : Nat) (i : Nat) (s : KState) : Option KState :=
  let a := physmem_allocblock cfg s
  let phys_page := a.1
  if phys_page = 0 then none
  else
    let virt_page := stack_vaddr cfg i
    let s1 := vm_map cfg pagetable phys_page virt_page (cfg.PAGE_USER ||| cfg.PAGE_WRITE) a.2
    memoryset cfg virt_page 0 cfg.PAGE_SIZE s1

/-- The two asserted file operations that fill a page (lines 100-103 and
121-124): seek, then read exactly the requested number of bytes. -/
def fill_page (cfg : Config) (file : Int) (seek_position : Int) (virt_page : Nat)
    (bufsize : Int) (s : KState) : Option KState :=
  let k := vfs_seek file seek_position s
  if k.1 ≠ 0 then none
  else
    match vfs_read cfg file virt_page bufsize k.2 with
    | none => none
    | some r => if r.1 = bufsize then some r.2 else none

/-- Body of the read-only segment loop (lines 90-107). -/
def ro_page (cfg : Config) (pagetable : Nat) (elf : elf_info_t) (file : Int) (i : Nat)
    (s : KState) : Option KState :=
  let left_to_read := toInt32 ((elf.ro_size : Int) - (i : Int) * (cfg.PAGE_SIZE : Int))
  let a := physmem_allocblock cfg s
  let phys_page := a.1
  if phys_page = 0 then none
  else
    let virt_page := seg_vaddr cfg elf.ro_vaddr i
    let s1 := vm_map cfg pagetable phys_page virt_page (cfg.PAGE_USER ||| cfg.PAGE_WRITE) a.2
    match memoryset cfg virt_page 0 cfg.PAGE_SIZE s1 with
    | none => none
    | some s2 =>
      match (if left_to_read > 0 then
              fill_page cfg file
                (toInt32 ((elf.ro_location : Int) + (i : Int) * (cfg.PAGE_SIZE : Int)))
                virt_page (toInt32 (MIN cfg.PAGE_SIZE left_to_read)) s2
            else some s2) with
      | none => none
      | some s3 => some (vm_map cfg pagetable phys_page virt_page cfg.PAGE_USER s3)

/-- Body of the read-write segment loop (lines 111-125). -/
def rw_page (cfg : Config) (pagetable : Nat) (elf : elf_info_t) (file : Int) (i : Nat)
    (s : KState) : Option KState :=
  let left_to_read := toInt32 ((elf.rw_size : Int) - (i : Int) * (cfg.PAGE_SIZE : Int))
  let a := physmem_allocblock cfg s
  let phys_page := a.1
  if phys_page = 0 then none
  else
    let virt_page := seg_vaddr cfg elf.rw_vaddr i
    let s1 := vm_map cfg pagetable phys_page virt_page (cfg.PAGE_USER ||| cfg.PAGE_WRITE) a.2
    match memoryset cfg virt_page 0 cfg.PAGE_SIZE s1 with
    | none => none
    | some s2 =>
      if left_to_read > 0 then
        fill_page cfg file
          (toInt32 ((elf.rw_location : Int) + (i : Int) * (cfg.PAGE_SIZE : Int)))
          virt_page (toInt32 (MIN cfg.PAGE_SIZE left_to_read)) s2
      else some s2

/-- The stack loop (lines 76-84). -/
def stack_loop (cfg : Config) (pagetable : Nat) (s : KState) : Option KState :=
  for_loop (stack_page cfg pagetable) cfg.CONFIG_USERLAND_STACK_SIZE.toNat 0 s

/-- The read-only segment loop (lines 89-108). -/
def ro_loop (cfg : Config) (pagetable : Nat) (elf : elf_info_t) (file : Int) (s : KState) :
    Option KState :=
  for_loop (ro_page cfg pagetable elf file) (toInt32 elf.ro_pages).toNat 0 s

/-- The read-write segment loop (lines 110-126). -/
def rw_loop (cfg : Config) (pagetable : Nat) (elf : elf_info_t) (file : Int) (s : KState) :
    Option KState :=
  for_loop (rw_page cfg pagetable elf file) (toInt32 elf.rw_pages).toNat 0 s

/-- The assignment thread_entry->pagetable = pagetable (line 73). -/
def set_entry_pagetable (thread pagetable : Nat) (s : KState) : KState :=
  tick { s with
    thread_table := fun t =>
      if t = thread then { s.thread_table t with pagetable := pagetable }
      else s.thread_table t }

/-- The assignments to thread_entry->context->pml4 and ->virt_memory
(lines 141-142). -/
def set_entry_context (thread pagetable : Nat) (s : KState) : KState :=
  tick { s with
    thread_table := fun t =>
      if t = thread then
        { s.thread_table t with
          context := { (s.thread_table t).context with
                        pml4 := pagetable, virt_memory := pagetable } }
      else s.thread_table t }

/-- What a call of setup_new_process that returns gives back: the return
value, the two output cells and the kernel state. -/
structure setup_result where
  ret : Int
  entry_point : Nat
  stack_top : Nat
  st : KState

/-- The part of setup_new_process that runs with the new page table
installed (lines 64-148), after the executable was opened, parsed and
validated. -/
def build_image (cfg : Config) (thread : Nat) (current_pml4 : Nat) (elf : elf_info_t)
    (file : Int) (stack_top : Nat) (s : KState) : Option setup_result :=
  let entry_point := elf.entry_point
  let c := vm_create_pagetable thread s
  let pagetable := c.1
  let d := _interrupt_disable c.2
  let intr_status := d.1
  let s1 := process_set_pagetable pagetable d.2
  let s2 := set_entry_pagetable thread pagetable s1
  (stack_loop cfg pagetable s2).bind fun s3 =>
  (ro_loop cfg pagetable elf file s3).bind fun s4 =>
  (rw_loop cfg pagetable elf file s4).bind fun s5 =>
    let s6 := vfs_close file s5
    let stack_top := cfg.USERLAND_STACK_TOP
    let s7 := process_set_pagetable current_pml4 s6
    let s8 := set_entry_context thread pagetable s7
    let s9 := _interrupt_set_state intr_status s8
    some ⟨0, entry_point, stack_top, s9⟩

/-- The function setup_new_process (lines 25-149).  The two output cells are
passed in with their prior contents and given back in the result; none
stands for a kernel halt (failed assertion or fault). -/
def setup_new_process (cfg : Config) (thread : Nat) (executable : String)
    (argv_src : List String) (entry_point stack_top : Nat) (s : KState) :
    Option setup_result :=
  let current_thread := thread_get_current_thread s
  let current_pml4 := (s.thread_table current_thread).context.virt_memory
  let o := vfs_open executable s
  let file := o.1
  if file < 0 then some ⟨-1, entry_point, stack_top, o.2⟩
  else
    let p := elf_parse_header file o.2
    let res := p.1
    let elf := p.2.1
    if res < 0 then some ⟨-1, entry_point, stack_top, p.2.2⟩
    else if elf.entry_point ≤ cfg.VMM_KERNEL_SPACE then
      some ⟨-1, entry_point, stack_top, p.2.2⟩
    else build_image cfg thread current_pml4 elf file stack_top p.2.2

/-- How a call of process_start ends. -/
inductive start_result where
  | returned (s : KState)
  | userland (user_context : context_t) (s : KState)
  | halted

/-- Modelled from the spec: transfer control to user mode with the prepared
context; the call does not return. -/
def thread_goto_userland (user_context : context_t) (s : KState) : start_result :=
  start_result.userland user_context (emit (Event.thread_goto_userland user_context) s)

/-- Modelled from the spec: set the program counter field of a context. -/
def _context_set_ip (c : context_t) (ip : Nat) : context_t := { c with ip := ip }

/-- Modelled from the spec: set the stack pointer field of a context. -/
def _context_set_sp (c : context_t) (sp : Nat) : context_t := { c with sp := sp }

/-- The 64 bit word all of whose bytes are the byte value. -/
def fill_word (value : Nat) : Nat := value % 256 * 0x0101010101010101

/-- Modelled from the spec: memoryset applied to a kernel object of type
context_t at the address user_context, with the size of the object as size.
The object lies in kernel memory, which the page model of user space does not
cover; each of its bytes becomes value, so each field becomes the word whose
bytes are all value. -/
def memoryset_context (user_context value size : Nat) (c : context_t) (s : KState) :
    context_t × KState :=
  (⟨fill_word value, fill_word value, fill_word value, fill_word value⟩,
    emit (Event.memoryset user_context value size) s)

/-- The function process_start (lines 151-178).  The locals entry_point,
stack_top and user_context start with the arbitrary contents e0, t0 and c0;
uc is the address of user_context. -/
def process_start (cfg : Config) (executable : String) (argv : List String)
    (e0 t0 uc : Nat) (c0 : context_t) (s : KState) : start_result :=
  let my_thread := thread_get_current_thread s
  match setup_new_process cfg my_thread executable argv e0 t0 s with
  | none => start_result.halted
  | some r =>
    if r.ret ≠ 0 then start_result.returned r.st
    else
      let m := memoryset_context uc 0 cfg.sizeof_context_t c0 r.st
      let user_context := _context_set_ip m.1 r.entry_point
      let user_context := _context_set_sp user_context r.stack_top
      let s1 := vmm_setcr3 (m.2.thread_table my_thread).context.pml4 m.2
      thread_goto_userland user_context s1

/-! ## Notions used in the statements -/

/-- A frame address the allocator could still hand out. -/
def FreeAddr (cfg : Config) (s : KState) (g : Nat) : Prop :=
  ∃ n, n < s.physmem_size ∧ s.physmem_free n = true ∧ n * cfg.PAGE_SIZE = g

/-- The effect of one loop iteration that allocates frame g for the page of
the virtual address v: service calls evs, final flags fl, and page contents
fill once the page was zeroed and filled. -/
structure PageStep (cfg : Config) (pt v fl : Nat) (evs : List Event) (fill : Nat → Nat)
    (g : Nat) (t t' : KState) : Prop where
  cr3_eq : t'.cr3 = t.cr3
  interrupts_eq : t'.interrupts = t.interrupts
  thread_table_eq : t'.thread_table = t.thread_table
  current_eq : t'.current_thread = t.current_thread
  files_eq : ∀ h, (t'.openfiles h).map (fun f => f.content) =
    (t.openfiles h).map (fun f => f.content)
  log_eq : t'.log = t.log ++ evs
  hist_eq : ∃ l, t'.hist = t.hist ++ l ∧ ∀ x ∈ l, x = snapshot t
  g_ne : g ≠ 0
  g_free : FreeAddr cfg t g
  free_iff : ∀ x, FreeAddr cfg t' x ↔ (FreeAddr cfg t x ∧ x ≠ g)
  tables_eq : ∀ r p, t'.tables r p =
    if r = pt ∧ p = v / cfg.PAGE_SIZE then some ⟨g, fl⟩ else t.tables r p
  mapped : t.cr3 = pt → ∀ k, k < cfg.PAGE_SIZE →
    (v + k) / cfg.PAGE_SIZE ≠ v / cfg.PAGE_SIZE →
    (t.tables pt ((v + k) / cfg.PAGE_SIZE)).isSome = true
  mem_eq : t.cr3 = pt → v % cfg.PAGE_SIZE = 0 → ∀ f o, t'.mem f o =
    if f = g ∧ o < cfg.PAGE_SIZE then fill o else t.mem f o
  mem_other : t.cr3 = pt → ∀ f, f ≠ g →
    (∀ k, k < cfg.PAGE_SIZE → ∀ e, t.tables pt ((v + k) / cfg.PAGE_SIZE) = some e →
      e.frame ≠ f) →
    ∀ o, t'.mem f o = t.mem f o
  seek_ok : ∀ f p, Event.vfs_seek f p ∈ evs → 0 ≤ p

/-- Service calls of one iteration of the stack loop that got frame g. -/
def stack_events (cfg : Config) (pt i g : Nat) : List Event :=
  [Event.physmem_allocblock g,
   Event.vm_map pt g (stack_vaddr cfg i) (cfg.PAGE_USER ||| cfg.PAGE_WRITE),
   Event.memoryset (stack_vaddr cfg i) 0 cfg.PAGE_SIZE]

/-- The value of left_to_read in iteration i of a segment loop. -/
def seg_left (cfg : Config) (size i : Nat) : Int :=
  toInt32 ((size : Int) - (i : Int) * (cfg.PAGE_SIZE : Int))

/-- The number of bytes requested from the file in iteration i. -/
def seg_len (cfg : Config) (size i : Nat) : Int :=
  toInt32 (MIN cfg.PAGE_SIZE (seg_left cfg size i))

/-- The seek position used in iteration i. -/
def seg_seek (cfg : Config) (location i : Nat) : Int :=
  toInt32 ((location : Int) + (i : Int) * (cfg.PAGE_SIZE : Int))

/-- The file operations of iteration i of a segment loop: none when nothing
is left to read, else one seek and one read. -/
def seg_io (cfg : Config) (file : Int) (size location vaddr i : Nat) : List Event :=
  if seg_left cfg size i > 0 then
    [Event.vfs_seek file (seg_seek cfg location i),
     Event.vfs_read file (seg_vaddr cfg vaddr i) (seg_len cfg size i)]
  else []

/-- Service calls of one iteration of a segment loop that got frame g; the
read-only loop ends an iteration with a second vm_map (remap). -/
def seg_events (cfg : Config) (pt : Nat) (file : Int) (size location vaddr : Nat)
    (remap : Bool) (i g : Nat) : List Event :=
  [Event.physmem_allocblock g,
   Event.vm_map pt g (seg_vaddr cfg vaddr i) (cfg.PAGE_USER ||| cfg.PAGE_WRITE),
   Event.memoryset (seg_vaddr cfg vaddr i) 0 cfg.PAGE_SIZE]
  ++ seg_io cfg file size location vaddr i
  ++ (if remap then [Event.vm_map pt g (seg_vaddr cfg vaddr i) cfg.PAGE_USER] else [])

/-- Contents of page i of a segment after its iteration: the bytes read from
the file, then zeroes. -/
def seg_fill (cfg : Config) (d : file_data) (size location i : Nat) (o : Nat) : Nat :=
  if seg_left cfg size i > 0 ∧ (o : Int) < seg_len cfg size i then
    d.byte ((seg_seek cfg location i).toNat + o)
  else 0

/-- The contents of the file behind a handle (empty when it is not open). -/
def file_of (s : KState) (file : Int) : file_data :=
  match s.openfiles file with
  | some f => f.content
  | none => ⟨0, fun _ => 0⟩

/-- The common shape of the bodies of the two segment loops. -/
def seg_page (cfg : Config) (pagetable : Nat) (size location vaddr : Nat) (remap : Bool)
    (file : Int) (i : Nat) (s : KState) : Option KState :=
  let a := physmem_allocblock cfg s
  if a.1 = 0 then none
  else
    let s1 := vm_map cfg pagetable a.1 (seg_vaddr cfg vaddr i)
      (cfg.PAGE_USER ||| cfg.PAGE_WRITE) a.2
    match memoryset cfg (seg_vaddr cfg vaddr i) 0 cfg.PAGE_SIZE s1 with
    | none => none
    | some s2 =>
      match (if seg_left cfg size i > 0 then
              fill_page cfg file (seg_seek cfg location i) (seg_vaddr cfg vaddr i)
                (seg_len cfg size i) s2
            else some s2) with
      | none => none
      | some s3 =>
        some (if remap then
          vm_map cfg pagetable a.1 (seg_vaddr cfg vaddr i) cfg.PAGE_USER s3 else s3)

/-- Service calls of the first n iterations of a loop whose iteration i,
having got frame fr i, makes the calls ev i (fr i). -/
def loop_events (ev : Nat → Nat → List Event) (fr : Nat → Nat) : Nat → List Event
  | 0 => []
  | n + 1 => loop_events ev fr n ++ ev n (fr n)

/-- Page tables after the first n iterations of a loop that maps the page of
va i to frame fr i with flags fl in the table pt. -/
def loop_tables (cfg : Config) (pt : Nat) (va : Nat → Nat) (fl : Nat) (fr : Nat → Nat)
    (tbl : Nat → Nat → Option pte_t) : Nat → Nat → Nat → Option pte_t
  | 0 => tbl
  | n + 1 => fun r p =>
    if r = pt ∧ p = va n / cfg.PAGE_SIZE then some ⟨fr n, fl⟩
    else loop_tables cfg pt va fl fr tbl n r p

/-- Physical memory after the first n iterations of a loop that leaves the
contents fill i in frame fr i. -/
def loop_mem (cfg : Config) (fr : Nat → Nat) (fill : Nat → Nat → Nat)
    (mem : Nat → Nat → Nat) : Nat → Nat → Nat → Nat
  | 0 => mem
  | n + 1 => fun f o =>
    if f = fr n ∧ o < cfg.PAGE_SIZE then fill n o else loop_mem cfg fr fill mem n f o

/-- The effect of n iterations of a page loop, iteration i having got the
frame fr i. -/
structure LoopFacts (cfg : Config) (pt : Nat) (va : Nat → Nat) (fl : Nat)
    (ev : Nat → Nat → List Event) (fill : Nat → Nat → Nat) (fr : Nat → Nat) (n : Nat)
    (s s' : KState) : Prop where
  cr3_eq : s'.cr3 = s.cr3
  interrupts_eq : s'.interrupts = s.interrupts
  thread_table_eq : s'.thread_table = s.thread_table
  current_eq : s'.current_thread = s.current_thread
  files_eq : ∀ h, (s'.openfiles h).map (fun f => f.content) =
    (s.openfiles h).map (fun f => f.content)
  log_eq : s'.log = s.log ++ loop_events ev fr n
  hist_eq : ∃ l, s'.hist = s.hist ++ l ∧ ∀ x ∈ l, x = snapshot s
  fr_ne : ∀ i, i < n → fr i ≠ 0
  fr_free : ∀ i, i < n → FreeAddr cfg s (fr i)
  fr_inj : ∀ i j, i < n → j < n → fr i = fr j → i = j
  free_iff : ∀ x, FreeAddr cfg s' x ↔ (FreeAddr cfg s x ∧ ∀ i, i < n → x ≠ fr i)
  tables_eq : s'.tables = loop_tables cfg pt va fl fr s.tables n
  mapped : s.cr3 = pt → ∀ i, i < n → ∀ k, k < cfg.PAGE_SIZE →
    (va i + k) / cfg.PAGE_SIZE ≠ va i / cfg.PAGE_SIZE →
    (loop_tables cfg pt va fl fr s.tables i pt ((va i + k) / cfg.PAGE_SIZE)).isSome = true
  mem_eq : s.cr3 = pt → (∀ i, i < n → va i % cfg.PAGE_SIZE = 0) →
    s'.mem = loop_mem cfg fr fill s.mem n
  mem_other : s.cr3 = pt → ∀ f, (∀ i, i < n → f ≠ fr i) →
    (∀ i, i < n → ∀ k, k < cfg.PAGE_SIZE → ∀ e,
      loop_tables cfg pt va fl fr s.tables i pt ((va i + k) / cfg.PAGE_SIZE) = some e →
      e.frame ≠ f) →
    ∀ o, s'.mem f o = s.mem f o
  seek_ok : ∀ i, i < n → ∀ f p, Event.vfs_seek f p ∈ ev i (fr i) → 0 ≤ p

/-- The state in which the build starts: the executable was opened and
parsed. -/
def after_parse (executable : String) (s : KState) : KState :=
  (elf_parse_header (vfs_open executable s).1 (vfs_open executable s).2).2.2

/-- The state at the start of the stack loop: new page table created and
installed with interrupts masked, and entered in the target thread's entry. -/
def build_start (thread : Nat) (s : KState) : KState :=
  set_entry_pagetable thread (vm_create_pagetable thread s).1
    (process_set_pagetable (vm_create_pagetable thread s).1
      (_interrupt_disable (vm_create_pagetable thread s).2).2)

/-- The state at return from a build whose loops ended in s5. -/
def build_finish (thread pagetable current_pml4 : Nat) (file : Int) (intr_status : Bool)
    (s5 : KState) : KState :=
  _interrupt_set_state intr_status
    (set_entry_context thread pagetable
      (process_set_pagetable current_pml4 (vfs_close file s5)))

/-- The decomposition of a build that returned: the states between the three
loops and the frames each loop got. -/
structure BuildFacts (cfg : Config) (thread current_pml4 : Nat) (elf : elf_info_t)
    (file : Int) (s : KState) (r : setup_result) (frS frN frM : Nat → Nat)
    (s3 s4 s5 : KState) : Prop where
  stack : LoopFacts cfg s.next_table (stack_vaddr cfg) (cfg.PAGE_USER ||| cfg.PAGE_WRITE)
    (stack_events cfg s.next_table) (fun _ _ => 0) frS
    cfg.CONFIG_USERLAND_STACK_SIZE.toNat (build_start thread s) s3
  ro : LoopFacts cfg s.next_table (seg_vaddr cfg elf.ro_vaddr) cfg.PAGE_USER
    (seg_events cfg s.next_table file elf.ro_size elf.ro_location elf.ro_vaddr true)
    (seg_fill cfg (file_of s3 file) elf.ro_size elf.ro_location) frN
    (toInt32 elf.ro_pages).toNat s3 s4
  rw : LoopFacts cfg s.next_table (seg_vaddr cfg elf.rw_vaddr)
    (cfg.PAGE_USER ||| cfg.PAGE_WRITE)
    (seg_events cfg s.next_table file elf.rw_size elf.rw_location elf.rw_vaddr false)
    (seg_fill cfg (file_of s4 file) elf.rw_size elf.rw_location) frM
    (toInt32 elf.rw_pages).toNat s4 s5
  result : r = ⟨0, elf.entry_point, cfg.USERLAND_STACK_TOP,
    build_finish thread s.next_table current_pml4 file s.interrupts s5⟩
  stack_run : stack_loop cfg s.next_table (build_start thread s) = some s3

/-- The service calls made between two states of one run. -/
def new_events (s s' : KState) : List Event := s'.log.drop s.log.length

/-- The observable snapshots recorded between two states of one run. -/
def new_snapshots (s s' : KState) : List Snapshot := s'.hist.drop s.hist.length

/-- The number of calls of physmem_allocblock in a list of service calls. -/
def alloc_calls (l : List Event) : Nat :=
  (l.filter (fun e => match e with
    | Event.physmem_allocblock _ => true
    | _ => false)).length

/-- The file system calls seek and read in a list of service calls. -/
def io_calls (l : List Event) : List Event :=
  l.filter (fun e => match e with
    | Event.vfs_seek _ _ => true
    | Event.vfs_read _ _ _ => true
    | _ => false)

/-- The service calls of a build that returned, in order: creation and
installation of the new page table, the three loops, and the epilogue. -/
def build_trace (cfg : Config) (thread pt pml4 : Nat) (elf : elf_info_t) (file : Int)
    (intr : Bool) (frS frN frM : Nat → Nat) : List Event :=
  [Event.vm_create_pagetable thread pt, Event.interrupt_disable,
    Event.process_set_pagetable pt]
  ++ loop_events (stack_events cfg pt) frS cfg.CONFIG_USERLAND_STACK_SIZE.toNat
  ++ loop_events (seg_events cfg pt file elf.ro_size elf.ro_location elf.ro_vaddr true) frN
      (toInt32 elf.ro_pages).toNat
  ++ loop_events (seg_events cfg pt file elf.rw_size elf.rw_location elf.rw_vaddr false) frM
      (toInt32 elf.rw_pages).toNat
  ++ [Event.vfs_close file, Event.process_set_pagetable pml4,
    Event.interrupt_set_state intr]

/-- The invariant on the running thread: when interrupts are enabled, the
live page table root is the address space recorded in its own entry. -/
def consistent (x : Snapshot) : Prop := x.interrupts = true → x.cr3 = x.recorded

/-- The virtual page numbers mapped by the stack loop. -/
def stack_pages (cfg : Config) : List Nat :=
  (List.range cfg.CONFIG_USERLAND_STACK_SIZE.toNat).map
    (fun i => stack_vaddr cfg i / cfg.PAGE_SIZE)

/-- The virtual page numbers of the pages 0, ..., pages - 1 of a segment at
vaddr. -/
def seg_pages (cfg : Config) (vaddr pages : Nat) : List Nat :=
  (List.range pages).map (fun i => seg_vaddr cfg vaddr i / cfg.PAGE_SIZE)

/-- The values describing a segment fit in a signed int, as does the byte
offset of each of its pages. -/
def seg_fits (cfg : Config) (vaddr size location pages : Nat) : Prop :=
  vaddr < 2147483648 ∧ size < 2147483648 ∧ location < 2147483648 ∧
  pages < 2147483648 ∧ pages * cfg.PAGE_SIZE < 2147483648

/-- The file operations the specification prescribes for the first n pages of
a segment: for each page with bytes remaining, one seek to the page's file
offset followed by one read of min(PAGE_SIZE, bytes remaining) bytes into
the page; nothing for a page with no bytes remaining. -/
def seg_reads (cfg : Config) (file : Int) (vaddr size location : Nat) : Nat → List Event
  | 0 => []
  | n + 1 =>
    seg_reads cfg file vaddr size location n ++
      (if n * cfg.PAGE_SIZE < size then
        [Event.vfs_seek file ((location + n * cfg.PAGE_SIZE : Nat) : Int),
         Event.vfs_read file (vaddr + n * cfg.PAGE_SIZE)
           ((min cfg.PAGE_SIZE (size - n * cfg.PAGE_SIZE) : Nat) : Int)]
      else [])

/-- The file operations made by the first n iterations of a segment loop. -/
def loop_io (cfg : Config) (file : Int) (size location vaddr : Nat) : Nat → List Event
  | 0 => []
  | n + 1 => loop_io cfg file size location vaddr n ++ seg_io cfg file size location vaddr n

/-- The frame numbers the allocator can still hand out. -/
def free_frames (s : KState) : List Nat :=
  (List.range s.physmem_size).filter (fun n => s.physmem_free n)

/-! ## A concrete scenario -/

/-- Page size 4096, four stack pages below 0x8000000, boundary 0x200000. -/
def cfg0 : Config :=
  { PAGE_SIZE := 4096, PAGE_SIZE_pos := by decide, USERLAND_STACK_TOP := 0x8000000,
    CONFIG_USERLAND_STACK_SIZE := 4, VMM_KERNEL_SPACE := 0x200000,
    PAGE_USER := 4, PAGE_WRITE := 2, sizeof_context_t := 32 }

/-- An executable with entry 0x400000, a read-only segment of one and a half
pages at 0x400000 and a read-write segment of one page at 0x402000. -/
def elf0 : elf_info_t :=
  { entry_point := 0x400000, ro_location := 4096, ro_size := 6144, ro_pages := 2,
    ro_vaddr := 0x400000, rw_location := 12288, rw_size := 4096, rw_pages := 1,
    rw_vaddr := 0x402000 }

/-- The executable file: 16384 bytes, byte k is k mod 251 + 1. -/
def file0 : file_data := ⟨16384, fun k => k % 251 + 1⟩

/-- A kernel state with two threads running on root 100, interrupts enabled,
frames 16 to 63 free, and one executable in the file system. -/
def s0 : KState :=
  { current_thread := 0
    thread_table := fun _ => ⟨⟨0, 0, 100, 100⟩, 100⟩
    cr3 := 100
    interrupts := true
    tables := fun _ _ => none
    next_table := 101
    physmem_free := fun n => decide (16 ≤ n)
    physmem_size := 64
    mem := fun _ _ => 255
    vfs_files := fun _ => some file0
    elf_format := fun _ => some elf0
    openfiles := fun _ => none
    vfs_next := 3
    log := []
    hist := [] }

/-- A small configuration: pages of 8 bytes, two stack pages below 0x100. -/
def cfg1 : Config :=
  { PAGE_SIZE := 8, PAGE_SIZE_pos := by decide, USERLAND_STACK_TOP := 0x100,
    CONFIG_USERLAND_STACK_SIZE := 2, VMM_KERNEL_SPACE := 16,
    PAGE_USER := 4, PAGE_WRITE := 2, sizeof_context_t := 32 }

/-- An executable for the small configuration: a read-only segment of one and
a half pages (12 bytes, 2 pages) at 64 and a read-write segment of one page
at 96. -/
def elf1 : elf_info_t :=
  { entry_point := 64, ro_location := 8, ro_size := 12, ro_pages := 2, ro_vaddr := 64,
    rw_location := 24, rw_size := 8, rw_pages := 1, rw_vaddr := 96 }

/-- The executable file of the small scenario: 64 bytes, byte k is k + 1. -/
def file1 : file_data := ⟨64, fun k => k + 1⟩

/-- The small scenario. -/
def s1 : KState :=
  { s0 with vfs_files := fun _ => some file1, elf_format := fun _ => some elf1 }

/-- The scenario with an ELF parser that rejects the file. -/
def s0_bad_format : KState := { s0 with elf_format := fun _ => none }

/-- An executable whose entry address lies below the kernel/user boundary. -/
def elf_low : elf_info_t := { elf0 with entry_point := 0x100000 }

/-- The scenario with the executable of low entry address. -/
def s0_low_entry : KState := { s0 with elf_format := fun _ => some elf_low }

/-- An executable whose read-only page count does not fit in an int: the
field holds 4294967295, and the segment lies at 0x10000000, above the stack. -/
def elf_big : elf_info_t := { elf0 with ro_pages := 4294967295, ro_vaddr := 0x10000000 }

/-- The scenario with the executable of 4294967295 read-only pages. -/
def s0_big : KState := { s0 with elf_format := fun _ => some elf_big }

theorem aligned_add_div (cfg : Config) (a k : Nat) (ha : a % cfg.PAGE_SIZE = 0)
    (hk : k < cfg.PAGE_SIZE) : (a + k) / cfg.PAGE_SIZE = a / cfg.PAGE_SIZE := by
  obtain ⟨q, rfl⟩ := Nat.dvd_of_mod_eq_zero ha
  rw [Nat.mul_add_div cfg.PAGE_SIZE_pos, Nat.mul_div_cancel_left _ cfg.PAGE_SIZE_pos,
    Nat.div_eq_of_lt hk, Nat.add_zero]

theorem aligned_add_mod (cfg : Config) (a k : Nat) (ha : a % cfg.PAGE_SIZE = 0)
    (hk : k < cfg.PAGE_SIZE) : (a + k) % cfg.PAGE_SIZE = k := by
  obtain ⟨q, rfl⟩ := Nat.dvd_of_mod_eq_zero ha
  rw [Nat.mul_add_mod, Nat.mod_eq_of_lt hk]

theorem page_span_aligned (cfg : Config) (a len : Nat) (ha : a % cfg.PAGE_SIZE = 0)
    (h0 : 0 < len) (hl : len ≤ cfg.PAGE_SIZE) : page_span cfg a len = [a / cfg.PAGE_SIZE] := by
  have h1 : (a + len - 1) / cfg.PAGE_SIZE = a / cfg.PAGE_SIZE := by
    have : a + len - 1 = a + (len - 1) := by omega
    rw [this]
    exact aligned_add_div cfg a (len - 1) ha (by omega)
  unfold page_span
  rw [if_neg (by omega), h1]
  simp [List.range_succ]

theorem mem_page_span (cfg : Config) (a len k : Nat) (hk : k < len) :
    (a + k) / cfg.PAGE_SIZE ∈ page_span cfg a len := by
  unfold page_span
  rw [if_neg (by omega)]
  have h1 : a / cfg.PAGE_SIZE ≤ (a + k) / cfg.PAGE_SIZE := Nat.div_le_div_right (by omega)
  have h2 : (a + k) / cfg.PAGE_SIZE ≤ (a + len - 1) / cfg.PAGE_SIZE :=
    Nat.div_le_div_right (by omega)
  simp only [List.mem_map, List.mem_range]
  exact ⟨(a + k) / cfg.PAGE_SIZE - a / cfg.PAGE_SIZE, by omega, by omega⟩

/-! ## Stores through the live page table -/

theorem store_mem_aligned (cfg : Config) (tbl : Nat → Option pte_t) (a : Nat)
    (val : Nat → Nat) (mem : Nat → Nat → Nat) (e : pte_t)
    (ha : a % cfg.PAGE_SIZE = 0) (he : tbl (a / cfg.PAGE_SIZE) = some e) :
    ∀ n, n ≤ cfg.PAGE_SIZE → ∀ f o, store_mem cfg tbl a val n mem f o =
      if f = e.frame ∧ o < n then val o else mem f o := by
  intro n
  induction n with
  | zero => intro _ f o; simp [store_mem]
  | succ n ih =>
    intro hn f o
    have hd := aligned_add_div cfg a n ha (by omega)
    have hm := aligned_add_mod cfg a n ha (by omega)
    simp only [store_mem, hd, he, hm]
    rw [ih (by omega)]
    by_cases hf : f = e.frame
    · by_cases ho : o = n
      · subst ho; simp [hf]
      · have : (o < n + 1) = (o < n) := by
          apply propext; constructor <;> intro h <;> omega
        simp [hf, ho, this]
    · simp [hf]

theorem store_mem_other (cfg : Config) (tbl : Nat → Option pte_t) (a : Nat)
    (val : Nat → Nat) (mem : Nat → Nat → Nat) (f o : Nat) :
    ∀ n, (∀ k, k < n → ∀ e, tbl ((a + k) / cfg.PAGE_SIZE) = some e → e.frame ≠ f) →
      store_mem cfg tbl a val n mem f o = mem f o := by
  intro n
  induction n with
  | zero => intro _; rfl
  | succ n ih =>
    intro h
    simp only [store_mem]
    cases he : tbl ((a + n) / cfg.PAGE_SIZE) with
    | none => exact ih (fun k hk => h k (by omega))
    | some e =>
      simp only
      rw [if_neg, ih (fun k hk => h k (by omega))]
      rintro ⟨hf, _⟩
      exact h n (by omega) e he hf.symm

theorem store_bytes_mapped (cfg : Config) (a len : Nat) (val : Nat → Nat) (s s' : KState)
    (h : store_bytes cfg a len val s = some s') (k : Nat) (hk : k < len) :
    (s.tables s.cr3 ((a + k) / cfg.PAGE_SIZE)).isSome = true := by
  unfold store_bytes at h
  split at h
  · rename_i hall
    rw [List.all_eq_true] at hall
    exact hall _ (mem_page_span cfg a len k hk)
  · simp at h

theorem store_bytes_eq (cfg : Config) (a len : Nat) (val : Nat → Nat) (s s' : KState)
    (h : store_bytes cfg a len val s = some s') :
    s' = { s with mem := store_mem cfg (s.tables s.cr3) a val len s.mem } := by
  unfold store_bytes at h
  split at h
  · simpa using h.symm
  · simp at h

/-! ## The frame allocator -/

theorem physmem_allocblock_spec (cfg : Config) (s : KState)
    (hg : (physmem_allocblock cfg s).1 ≠ 0) :
    FreeAddr cfg s (physmem_allocblock cfg s).1 ∧
    (∀ x, FreeAddr cfg (physmem_allocblock cfg s).2 x ↔
      (FreeAddr cfg s x ∧ x ≠ (physmem_allocblock cfg s).1)) ∧
    ∃ fr, (physmem_allocblock cfg s).2 =
      emit (Event.physmem_allocblock (physmem_allocblock cfg s).1)
        { s with physmem_free := fr } := by
  unfold physmem_allocblock at *
  cases hfind : (List.range s.physmem_size).find? (fun n => s.physmem_free n) with
  | none => simp [hfind] at hg
  | some n =>
    have hn : n < s.physmem_size := List.mem_range.mp (List.mem_of_find?_eq_some hfind)
    have hfree : s.physmem_free n = true := by simpa using List.find?_some hfind
    simp only [hfind]
    refine ⟨⟨n, hn, hfree, rfl⟩, ?_, ⟨_, rfl⟩⟩
    intro x
    simp only [FreeAddr, emit, tick]
    constructor
    · rintro ⟨m, hm, hmf, hmx⟩
      by_cases hmn : m = n
      · simp [hmn] at hmf
      · simp only [hmn, if_false] at hmf
        refine ⟨⟨m, hm, hmf, hmx⟩, ?_⟩
        intro hx
        rw [← hmx] at hx
        exact hmn (Nat.eq_of_mul_eq_mul_right cfg.PAGE_SIZE_pos hx)
    · rintro ⟨⟨m, hm, hmf, hmx⟩, hne⟩
      have hmn : m ≠ n := by
        intro h; apply hne; rw [← hmx, h]
      exact ⟨m, hm, by simp [hmn, hmf], hmx⟩

theorem memoryset_eq (cfg : Config) (v value size : Nat) (s s' : KState)
    (h : memoryset cfg v value size s = some s') :
    s' = emit (Event.memoryset v value size)
      { s with mem := store_mem cfg (s.tables s.cr3) v (fun _ => value) size s.mem } ∧
    ∀ k, k < size → (s.tables s.cr3 ((v + k) / cfg.PAGE_SIZE)).isSome = true := by
  unfold memoryset at h
  cases hs : store_bytes cfg v size (fun _ => value) s with
  | none => simp [hs] at h
  | some s1 =>
    simp only [hs, Option.map_some'] at h
    have := store_bytes_eq cfg v size _ s s1 hs
    refine ⟨?_, fun k hk => store_bytes_mapped cfg v size _ s s1 hs k hk⟩
    rw [← Option.some.inj h, this]

/-! ## One iteration of the stack loop -/

theorem stack_page_step (cfg : Config) (pt i : Nat) (t t' : KState)
    (h : stack_page cfg pt i t = some t') :
    ∃ g, PageStep cfg pt (stack_vaddr cfg i) (cfg.PAGE_USER ||| cfg.PAGE_WRITE)
      (stack_events cfg pt i g) (fun _ => 0) g t t' := by
  unfold stack_page at h
  simp only at h
  split at h
  · simp at h
  · rename_i hg
    obtain ⟨hfree, hiff, fr, hs1⟩ := physmem_allocblock_spec cfg t hg
    generalize (physmem_allocblock cfg t).1 = g at *
    generalize (physmem_allocblock cfg t).2 = s1 at *
    subst hs1
    obtain ⟨hs', hmapped⟩ := memoryset_eq cfg _ _ _ _ _ h
    refine ⟨g, ?_⟩
    subst hs'
    constructor
    · simp [emit, tick, vm_map]
    · simp [emit, tick, vm_map]
    · simp [emit, tick, vm_map]
    · simp [emit, tick, vm_map]
    · intro h; simp [emit, tick, vm_map]
    · simp [emit, tick, vm_map, stack_events]
    · refine ⟨[snapshot t, snapshot t, snapshot t], ?_, by simp⟩
      simp [emit, tick, vm_map, snapshot]
    · exact hg
    · exact hfree
    · intro x
      rw [← hiff x]
      simp [FreeAddr, emit, tick, vm_map]
    · intro r p
      simp [emit, tick, vm_map]
    · intro hcr k hk hne
      have := hmapped k hk
      simp only [emit, tick, vm_map] at this
      rw [hcr] at this
      simpa [hne] using this
    · intro hcr ha f o
      simp only [emit, tick, vm_map]
      rw [store_mem_aligned cfg _ _ _ _ ⟨g, cfg.PAGE_USER ||| cfg.PAGE_WRITE⟩ ha
        (by simp [hcr]) cfg.PAGE_SIZE (le_refl _)]
    · intro hcr f hfg hno o
      simp only [emit, tick, vm_map]
      apply store_mem_other
      intro k hk e he
      by_cases hp : (stack_vaddr cfg i + k) / cfg.PAGE_SIZE = stack_vaddr cfg i / cfg.PAGE_SIZE
      · simp only [hcr, hp, and_self, if_true] at he
        rw [← Option.some.inj he]
        exact fun h => hfg h.symm
      · simp only [hcr, hp, and_false, if_false] at he
        exact hno k hk e he
    · intro f p hm
      simp [stack_events] at hm

/-! ## One iteration of a segment loop -/

theorem ro_page_eq (cfg : Config) (pt : Nat) (elf : elf_info_t) (file : Int) (i : Nat)
    (s : KState) :
    ro_page cfg pt elf file i s =
      seg_page cfg pt elf.ro_size elf.ro_location elf.ro_vaddr true file i s := by
  unfold ro_page seg_page seg_len seg_left seg_seek
  rfl

theorem rw_page_eq (cfg : Config) (pt : Nat) (elf : elf_info_t) (file : Int) (i : Nat)
    (s : KState) :
    rw_page cfg pt elf file i s =
      seg_page cfg pt elf.rw_size elf.rw_location elf.rw_vaddr false file i s := by
  unfold rw_page seg_page seg_len seg_left seg_seek
  simp only [Bool.false_eq_true, if_false]
  split
  · rfl
  · split
    · rfl
    · rename_i s2 _
      by_cases hl : toInt32 ((elf.rw_size : Int) - (i : Int) * (cfg.PAGE_SIZE : Int)) > 0
      · simp only [hl, if_true]
        cases fill_page cfg file
            (toInt32 ((elf.rw_location : Int) + (i : Int) * (cfg.PAGE_SIZE : Int)))
            (seg_vaddr cfg elf.rw_vaddr i)
            (toInt32 (MIN cfg.PAGE_SIZE
              (toInt32 ((elf.rw_size : Int) - (i : Int) * (cfg.PAGE_SIZE : Int))))) s2 <;> rfl
      · simp [hl]

theorem toInt32_of_range (x : Int) (h0 : -2147483648 ≤ x) (h1 : x < 2147483648) :
    toInt32 x = x := by
  unfold toInt32; omega

theorem toInt32_lt (x : Int) : toInt32 x < 2147483648 := by
  unfold toInt32; omega

theorem toInt32_toNat_natCast (n : Nat) (h : n < 2147483648) :
    (toInt32 (n : Int)).toNat = n := by
  rw [toInt32_of_range _ (by omega) (by omega)]
  exact Int.toNat_natCast n

theorem toVirt_natCast (n : Nat) (h : n < 18446744073709551616) : toVirt (n : Int) = n := by
  unfold toVirt
  rw [Int.emod_eq_of_lt (Int.natCast_nonneg n) (by exact_mod_cast h)]
  exact Int.toNat_natCast n

theorem seg_vaddr_eq (cfg : Config) (vaddr i : Nat)
    (h : vaddr + i * cfg.PAGE_SIZE < 18446744073709551616) :
    seg_vaddr cfg vaddr i = vaddr + i * cfg.PAGE_SIZE := by
  unfold seg_vaddr
  have : (vaddr : Int) + (i : Int) * (cfg.PAGE_SIZE : Int) =
      ((vaddr + i * cfg.PAGE_SIZE : Nat) : Int) := by push_cast; rfl
  rw [this]
  exact toVirt_natCast _ h

theorem seg_len_eq (cfg : Config) (size i : Nat) (h : seg_left cfg size i > 0) :
    seg_len cfg size i = MIN cfg.PAGE_SIZE (seg_left cfg size i) ∧
    0 < seg_len cfg size i ∧ seg_len cfg size i ≤ cfg.PAGE_SIZE := by
  have h1 : seg_left cfg size i < 2147483648 := toInt32_lt _
  have hp : (0 : Int) < cfg.PAGE_SIZE := by exact_mod_cast cfg.PAGE_SIZE_pos
  have hmin : 0 < MIN cfg.PAGE_SIZE (seg_left cfg size i) ∧
      MIN cfg.PAGE_SIZE (seg_left cfg size i) ≤ cfg.PAGE_SIZE ∧
      MIN cfg.PAGE_SIZE (seg_left cfg size i) < 2147483648 := by
    unfold MIN; split <;> omega
  have : seg_len cfg size i = MIN cfg.PAGE_SIZE (seg_left cfg size i) := by
    unfold seg_len; exact toInt32_of_range _ (by omega) (by omega)
  rw [this]
  exact ⟨rfl, hmin.1, hmin.2.1⟩

theorem fill_page_eq (cfg : Config) (file : Int) (pos : Int) (v : Nat) (len : Int)
    (s s' : KState) (h : fill_page cfg file pos v len s = some s') :
    0 ≤ pos ∧ 0 ≤ len ∧
    (∃ fs, s' = { s with
        mem := store_mem cfg (s.tables s.cr3) v
          (fun k => (file_of s file).byte (pos.toNat + k)) len.toNat s.mem
        openfiles := fs
        log := s.log ++ [Event.vfs_seek file pos, Event.vfs_read file v len]
        hist := s.hist ++ [snapshot s, snapshot s] } ∧
      ∀ h, (fs h).map (fun f => f.content) = (s.openfiles h).map (fun f => f.content)) ∧
    ∀ k, k < len.toNat → (s.tables s.cr3 ((v + k) / cfg.PAGE_SIZE)).isSome = true := by
  unfold fill_page vfs_seek at h
  cases hof : s.openfiles file with
  | none => simp [hof] at h
  | some f =>
    simp only [hof] at h
    by_cases hpos : pos < 0
    · simp [hpos] at h
    · simp only [hpos, if_false, ne_eq, not_true_eq_false] at h
      unfold vfs_read at h
      simp only [emit, tick, if_true] at h
      cases hst : store_bytes cfg v (min len.toNat (f.content.size - pos.toNat))
          (fun k => f.content.byte (pos.toNat + k))
          { s with
            openfiles := fun h =>
              if h = file then some ⟨f.content, pos.toNat⟩ else s.openfiles h
            log := s.log ++ [Event.vfs_seek file pos]
            hist := s.hist ++ [snapshot { s with
              openfiles := fun h =>
                if h = file then some ⟨f.content, pos.toNat⟩ else s.openfiles h
              log := s.log ++ [Event.vfs_seek file pos] }] } with
      | none => simp [hst] at h
      | some s1 =>
        simp only [hst, Option.map_some'] at h
        split at h
        · rename_i hlen
          have hlen0 : 0 ≤ len := by rw [← hlen]; exact Int.natCast_nonneg _
          have hn : min len.toNat (f.content.size - pos.toNat) = len.toNat := by
            have : ((min len.toNat (f.content.size - pos.toNat) : Nat) : Int) = len := hlen
            omega
          rw [hn] at hst
          have hmapped := store_bytes_mapped cfg _ _ _ _ _ hst
          have heq := store_bytes_eq cfg _ _ _ _ _ hst
          refine ⟨by omega, hlen0, ⟨fun h =>
            if h = file then some ⟨f.content, pos.toNat + len.toNat⟩ else s.openfiles h,
            ?_, ?_⟩, ?_⟩
          · rw [← Option.some.inj h, heq]
            simp only [snapshot, file_of, hof, hn, KState.mk.injEq, true_and,
              List.append_assoc, List.singleton_append, and_true]
            funext h
            by_cases hh : h = file <;> simp [hh]
          · intro h
            by_cases hh : h = file
            · simp [hh, hof]
            · simp [hh]
          · intro k hk
            simpa using hmapped k hk
        · simp at h

theorem seg_fill_step (cfg : Config) (file : Int) (size location vaddr i : Nat)
    (s2 s3 : KState)
    (h : (if seg_left cfg size i > 0 then
            fill_page cfg file (seg_seek cfg location i) (seg_vaddr cfg vaddr i)
              (seg_len cfg size i) s2
          else some s2) = some s3) :
    (∃ fs, s3 = { s2 with
        mem := if seg_left cfg size i > 0 then
            store_mem cfg (s2.tables s2.cr3) (seg_vaddr cfg vaddr i)
              (fun k => (file_of s2 file).byte ((seg_seek cfg location i).toNat + k))
              (seg_len cfg size i).toNat s2.mem
          else s2.mem
        openfiles := fs
        log := s2.log ++ seg_io cfg file size location vaddr i
        hist := s2.hist ++ (seg_io cfg file size location vaddr i).map (fun _ => snapshot s2) } ∧
      ∀ h, (fs h).map (fun f => f.content) = (s2.openfiles h).map (fun f => f.content)) ∧
    (seg_left cfg size i > 0 → 0 ≤ seg_seek cfg location i) := by
  by_cases hl : seg_left cfg size i > 0
  · simp only [hl, if_true] at h
    obtain ⟨hpos, _, ⟨fs, hs3, hfs⟩, _⟩ := fill_page_eq cfg _ _ _ _ _ _ h
    refine ⟨⟨fs, ?_, hfs⟩, fun _ => hpos⟩
    rw [hs3]
    simp [seg_io, hl]
  · simp only [hl, if_false] at h
    refine ⟨⟨s2.openfiles, ?_, fun _ => rfl⟩, fun hc => absurd hc hl⟩
    rw [← Option.some.inj h]
    simp [seg_io, hl]

theorem seg_page_step (cfg : Config) (pt size location vaddr : Nat) (remap : Bool)
    (file : Int) (i : Nat) (t t' : KState)
    (h : seg_page cfg pt size location vaddr remap file i t = some t') :
    ∃ g, PageStep cfg pt (seg_vaddr cfg vaddr i)
      (if remap then cfg.PAGE_USER else cfg.PAGE_USER ||| cfg.PAGE_WRITE)
      (seg_events cfg pt file size location vaddr remap i g)
      (seg_fill cfg (file_of t file) size location i) g t t' := by
  unfold seg_page at h
  simp only at h
  split at h
  · simp at h
  · rename_i hg
    obtain ⟨hfree, hiff, fr, hs1⟩ := physmem_allocblock_spec cfg t hg
    generalize (physmem_allocblock cfg t).1 = g at *
    generalize (physmem_allocblock cfg t).2 = s1 at *
    subst hs1
    split at h
    · simp at h
    · rename_i s2 hms
      obtain ⟨hs2, hmapped⟩ := memoryset_eq cfg _ _ _ _ _ hms
      split at h
      · simp at h
      · rename_i s3 hfill
        obtain ⟨⟨fs, hs3, hfs⟩, hseek⟩ :=
          seg_fill_step cfg file size location vaddr i s2 s3 hfill
        have ht' := (Option.some.inj h).symm
        refine ⟨g, ?_⟩
        have hfile2 : file_of s2 file = file_of t file := by
          rw [hs2]; simp [file_of, emit, tick, vm_map]
        constructor
        · rw [ht', hs3, hs2]; cases remap <;> simp [emit, tick, vm_map]
        · rw [ht', hs3, hs2]; cases remap <;> simp [emit, tick, vm_map]
        · rw [ht', hs3, hs2]; cases remap <;> simp [emit, tick, vm_map]
        · rw [ht', hs3, hs2]; cases remap <;> simp [emit, tick, vm_map]
        · intro h
          have : (t'.openfiles h).map (fun f => f.content) =
              (fs h).map (fun f => f.content) := by
            rw [ht', hs3]; cases remap <;> simp [emit, tick, vm_map]
          rw [this, hfs h, hs2]; simp [emit, tick, vm_map]
        · rw [ht', hs3, hs2]; cases remap <;> simp [emit, tick, vm_map, seg_events]
        · refine ⟨[snapshot t, snapshot t, snapshot t] ++
            (seg_io cfg file size location vaddr i).map (fun _ => snapshot t) ++
            (if remap then [snapshot t] else []), ?_, ?_⟩
          · rw [ht', hs3, hs2]; cases remap <;> simp [emit, tick, vm_map, snapshot]
          · intro x hx
            simp only [List.mem_append, List.mem_map] at hx
            rcases hx with (hx | ⟨_, _, hx⟩) | hx
            · simp at hx; exact hx
            · exact hx.symm
            · cases remap <;> simp at hx; exact hx
        · exact hg
        · exact hfree
        · intro x
          rw [← hiff x, ht', hs3, hs2]
          cases remap <;> simp [FreeAddr, emit, tick, vm_map]
        · intro r p
          rw [ht', hs3, hs2]
          cases remap <;> simp [emit, tick, vm_map]
          by_cases hrp : r = pt ∧ p = seg_vaddr cfg vaddr i / cfg.PAGE_SIZE
          · simp [hrp]
          · simp [hrp]
        · intro hcr k hk hne
          have := hmapped k hk
          simp only [emit, tick, vm_map] at this
          rw [hcr] at this
          simpa [hne] using this
        · intro hcr ha f o
          have hm2 : ∀ f o, s2.mem f o =
              if f = g ∧ o < cfg.PAGE_SIZE then 0 else t.mem f o := by
            intro f o
            rw [hs2]
            simp only [emit, tick, vm_map]
            rw [store_mem_aligned cfg _ _ _ _ ⟨g, cfg.PAGE_USER ||| cfg.PAGE_WRITE⟩ ha
              (by simp [hcr]) cfg.PAGE_SIZE (le_refl _)]
          have htab2 : s2.tables s2.cr3 (seg_vaddr cfg vaddr i / cfg.PAGE_SIZE) =
              some ⟨g, cfg.PAGE_USER ||| cfg.PAGE_WRITE⟩ := by
            rw [hs2]; simp [emit, tick, vm_map, hcr]
          have hm3 : t'.mem f o = s3.mem f o := by
            rw [ht']; cases remap <;> simp [emit, tick, vm_map]
          rw [hm3, hs3]
          simp only
          by_cases hl : seg_left cfg size i > 0
          · obtain ⟨_, hlen0, hlenP⟩ := seg_len_eq cfg size i hl
            simp only [hl, if_true]
            rw [store_mem_aligned cfg _ _ _ _ _ ha htab2 (seg_len cfg size i).toNat
              (by omega), hm2, hfile2]
            simp only [seg_fill, hl, true_and]
            by_cases hf : f = g
            · by_cases ho : o < (seg_len cfg size i).toNat
              · have ho1 : (o : Int) < seg_len cfg size i := by omega
                have ho2 : o < cfg.PAGE_SIZE := by omega
                simp [hf, ho, ho1, ho2]
              · have ho1 : ¬ (o : Int) < seg_len cfg size i := by omega
                simp [hf, ho, ho1]
            · simp [hf]
          · simp only [hl, if_false]
            rw [hm2]
            simp [seg_fill, hl]
        · intro hcr f hfg hno o
          have hent : ∀ k, k < cfg.PAGE_SIZE → ∀ e,
              s2.tables s2.cr3 ((seg_vaddr cfg vaddr i + k) / cfg.PAGE_SIZE) = some e →
              e.frame ≠ f := by
            intro k hk e he
            rw [hs2] at he
            simp only [emit, tick, vm_map] at he
            by_cases hp : (seg_vaddr cfg vaddr i + k) / cfg.PAGE_SIZE =
                seg_vaddr cfg vaddr i / cfg.PAGE_SIZE
            · simp only [hcr, hp, and_self, if_true] at he
              rw [← Option.some.inj he]
              exact fun h => hfg h.symm
            · simp only [hcr, hp, and_false, if_false] at he
              exact hno k hk e he
          have hm2 : s2.mem f o = t.mem f o := by
            have hent2 := hent
            rw [hs2] at hent2 ⊢
            simp only [emit, tick, vm_map] at hent2 ⊢
            exact store_mem_other cfg _ _ _ _ f o cfg.PAGE_SIZE hent2
          have hm3 : t'.mem f o = s3.mem f o := by
            rw [ht']; cases remap <;> simp [emit, tick, vm_map]
          rw [hm3, hs3, ← hm2]
          simp only
          by_cases hl : seg_left cfg size i > 0
          · obtain ⟨_, hlen0, hlenP⟩ := seg_len_eq cfg size i hl
            simp only [hl, if_true]
            exact store_mem_other cfg _ _ _ _ f o _
              (fun k hk e he => hent k (by omega) e he)
          · simp only [hl, if_false]
        · intro f p hm
          by_cases hl : seg_left cfg size i > 0
          · have hp : f = file ∧ p = seg_seek cfg location i := by
              cases remap <;> simpa [seg_events, seg_io, hl] using hm
            rw [hp.2]; exact hseek hl
          · exfalso
            cases remap <;> simp [seg_events, seg_io, hl] at hm

/-! ## Loops -/

theorem for_loop_succ (body : Nat → KState → Option KState) :
    ∀ (n i : Nat) (s : KState), for_loop body (n + 1) i s =
      match for_loop body n i s with
      | none => none
      | some t => body (i + n) t := by
  intro n
  induction n with
  | zero =>
    intro i s
    simp only [for_loop, Nat.add_zero]
    cases body i s <;> rfl
  | succ n ih =>
    intro i s
    rw [for_loop]
    cases hb : body i s with
    | none => simp [for_loop, hb]
    | some s1 =>
      simp only
      rw [ih (i + 1) s1]
      conv_rhs => rw [for_loop]
      simp only [hb]
      have : i + 1 + n = i + (n + 1) := by omega
      rw [this]

theorem loop_events_congr (ev : Nat → Nat → List Event) (fr fr' : Nat → Nat) :
    ∀ n, (∀ i, i < n → fr i = fr' i) → loop_events ev fr n = loop_events ev fr' n := by
  intro n
  induction n with
  | zero => intro _; rfl
  | succ n ih =>
    intro h
    simp only [loop_events]
    rw [ih (fun i hi => h i (by omega)), h n (by omega)]

theorem loop_tables_congr (cfg : Config) (pt : Nat) (va : Nat → Nat) (fl : Nat)
    (fr fr' : Nat → Nat) (tbl : Nat → Nat → Option pte_t) :
    ∀ n, (∀ i, i < n → fr i = fr' i) →
      loop_tables cfg pt va fl fr tbl n = loop_tables cfg pt va fl fr' tbl n := by
  intro n
  induction n with
  | zero => intro _; rfl
  | succ n ih =>
    intro h
    simp only [loop_tables]
    rw [ih (fun i hi => h i (by omega)), h n (by omega)]

theorem loop_mem_congr (cfg : Config) (fr fr' : Nat → Nat) (fill : Nat → Nat → Nat)
    (mem : Nat → Nat → Nat) :
    ∀ n, (∀ i, i < n → fr i = fr' i) →
      loop_mem cfg fr fill mem n = loop_mem cfg fr' fill mem n := by
  intro n
  induction n with
  | zero => intro _; rfl
  | succ n ih =>
    intro h
    simp only [loop_mem]
    rw [ih (fun i hi => h i (by omega)), h n (by omega)]

theorem loop_tables_other (cfg : Config) (pt : Nat) (va : Nat → Nat) (fl : Nat)
    (fr : Nat → Nat) (tbl : Nat → Nat → Option pte_t) (r p : Nat) :
    ∀ n, (r = pt → ∀ i, i < n → p ≠ va i / cfg.PAGE_SIZE) →
      loop_tables cfg pt va fl fr tbl n r p = tbl r p := by
  intro n
  induction n with
  | zero => intro _; rfl
  | succ n ih =>
    intro h
    simp only [loop_tables]
    rw [if_neg, ih (fun hr i hi => h hr i (by omega))]
    rintro ⟨hr, hp⟩
    exact h hr n (by omega) hp

theorem loop_tables_at (cfg : Config) (pt : Nat) (va : Nat → Nat) (fl : Nat)
    (fr : Nat → Nat) (tbl : Nat → Nat → Option pte_t) :
    ∀ n, (∀ i j, i < n → j < n → va i / cfg.PAGE_SIZE = va j / cfg.PAGE_SIZE → i = j) →
      ∀ i, i < n → loop_tables cfg pt va fl fr tbl n pt (va i / cfg.PAGE_SIZE) =
        some ⟨fr i, fl⟩ := by
  intro n
  induction n with
  | zero => intro _ i hi; omega
  | succ n ih =>
    intro hinj i hi
    simp only [loop_tables]
    by_cases hin : i = n
    · subst hin; simp
    · have : va i / cfg.PAGE_SIZE ≠ va n / cfg.PAGE_SIZE := fun h =>
        hin (hinj i n hi (by omega) h)
      rw [if_neg (by simp [this])]
      exact ih (fun a b ha hb => hinj a b (by omega) (by omega)) i (by omega)

theorem loop_tables_some (cfg : Config) (pt : Nat) (va : Nat → Nat) (fl : Nat)
    (fr : Nat → Nat) (tbl : Nat → Nat → Option pte_t) (r p : Nat) :
    ∀ n, (loop_tables cfg pt va fl fr tbl n r p).isSome = true →
      (tbl r p).isSome = true ∨ (r = pt ∧ ∃ i, i < n ∧ p = va i / cfg.PAGE_SIZE) := by
  intro n
  induction n with
  | zero => intro h; exact Or.inl h
  | succ n ih =>
    intro h
    simp only [loop_tables] at h
    by_cases hc : r = pt ∧ p = va n / cfg.PAGE_SIZE
    · exact Or.inr ⟨hc.1, n, by omega, hc.2⟩
    · rw [if_neg hc] at h
      rcases ih h with h1 | ⟨hr, i, hi, hp⟩
      · exact Or.inl h1
      · exact Or.inr ⟨hr, i, by omega, hp⟩

theorem loop_mem_other (cfg : Config) (fr : Nat → Nat) (fill : Nat → Nat → Nat)
    (mem : Nat → Nat → Nat) (f o : Nat) :
    ∀ n, (∀ i, i < n → f ≠ fr i) → loop_mem cfg fr fill mem n f o = mem f o := by
  intro n
  induction n with
  | zero => intro _; rfl
  | succ n ih =>
    intro h
    simp only [loop_mem]
    rw [if_neg, ih (fun i hi => h i (by omega))]
    rintro ⟨hf, _⟩
    exact h n (by omega) hf

theorem loop_mem_at (cfg : Config) (fr : Nat → Nat) (fill : Nat → Nat → Nat)
    (mem : Nat → Nat → Nat) :
    ∀ n, (∀ i j, i < n → j < n → fr i = fr j → i = j) →
      ∀ i o, i < n → o < cfg.PAGE_SIZE → loop_mem cfg fr fill mem n (fr i) o = fill i o := by
  intro n
  induction n with
  | zero => intro _ i o hi; omega
  | succ n ih =>
    intro hinj i o hi ho
    simp only [loop_mem]
    by_cases hin : i = n
    · subst hin; simp [ho]
    · have : fr i ≠ fr n := fun h => hin (hinj i n hi (by omega) h)
      rw [if_neg (by simp [this])]
      exact ih (fun a b ha hb => hinj a b (by omega) (by omega)) i o (by omega) ho

theorem file_of_congr (s t : KState) (file : Int)
    (h : (t.openfiles file).map (fun f => f.content) =
      (s.openfiles file).map (fun f => f.content)) : file_of t file = file_of s file := by
  unfold file_of
  cases ht : t.openfiles file <;> cases hs : s.openfiles file <;> simp_all

theorem snapshot_congr (s t : KState) (h1 : t.cr3 = s.cr3) (h2 : t.interrupts = s.interrupts)
    (h3 : t.thread_table = s.thread_table) (h4 : t.current_thread = s.current_thread) :
    snapshot t = snapshot s := by
  simp [snapshot, h1, h2, h3, h4]

theorem for_loop_facts (cfg : Config) (pt : Nat) (va : Nat → Nat) (fl : Nat)
    (ev : Nat → Nat → List Event) (fill : file_data → Nat → Nat → Nat) (file : Int)
    (body : Nat → KState → Option KState)
    (hstep : ∀ i t t', body i t = some t' →
      ∃ g, PageStep cfg pt (va i) fl (ev i g) (fill (file_of t file) i) g t t') :
    ∀ n s s', for_loop body n 0 s = some s' →
      ∃ fr, LoopFacts cfg pt va fl ev (fill (file_of s file)) fr n s s' := by
  intro n
  induction n with
  | zero =>
    intro s s' h
    simp only [for_loop] at h
    have hs := Option.some.inj h
    subst hs
    refine ⟨fun _ => 0, ?_⟩
    constructor
    · rfl
    · rfl
    · rfl
    · rfl
    · intro _; rfl
    · simp [loop_events]
    · exact ⟨[], by simp, by simp⟩
    · intro i hi; omega
    · intro i hi; omega
    · intro i j hi; omega
    · intro x; simp
    · rfl
    · intro _ i hi; omega
    · intro _ _; rfl
    · intro _ _ _ _ _; rfl
    · intro i hi; omega
  | succ n ih =>
    intro s s' h
    rw [for_loop_succ] at h
    cases hn : for_loop body n 0 s with
    | none => simp [hn] at h
    | some t =>
      simp only [hn, Nat.zero_add] at h
      obtain ⟨fr, L⟩ := ih s t hn
      obtain ⟨g, P⟩ := hstep n t s' h
      have hfile : file_of t file = file_of s file := file_of_congr s t file (L.files_eq file)
      rw [hfile] at P
      have hsnap : snapshot t = snapshot s :=
        snapshot_congr s t L.cr3_eq L.interrupts_eq L.thread_table_eq L.current_eq
      have hgfree := (L.free_iff g).mp P.g_free
      have hfr : ∀ i, i < n → fr i = (fun i => if i = n then g else fr i) i := by
        intro i hi
        simp [Nat.ne_of_lt hi]
      have hfrn : (fun i => if i = n then g else fr i) n = g := by simp
      refine ⟨fun i => if i = n then g else fr i, ?_⟩
      constructor
      · rw [P.cr3_eq, L.cr3_eq]
      · rw [P.interrupts_eq, L.interrupts_eq]
      · rw [P.thread_table_eq, L.thread_table_eq]
      · rw [P.current_eq, L.current_eq]
      · intro h; rw [P.files_eq, L.files_eq]
      · rw [P.log_eq, L.log_eq, loop_events, if_pos rfl, List.append_assoc,
          loop_events_congr ev _ _ n hfr]
      · obtain ⟨l1, hl1, hx1⟩ := L.hist_eq
        obtain ⟨l2, hl2, hx2⟩ := P.hist_eq
        refine ⟨l1 ++ l2, by rw [hl2, hl1, List.append_assoc], ?_⟩
        intro x hx
        rcases List.mem_append.mp hx with hx | hx
        · exact hx1 x hx
        · rw [hx2 x hx, hsnap]
      · intro i hi
        by_cases hin : i = n
        · simp only [hin, if_true]; exact P.g_ne
        · simp only [hin, if_false]; exact L.fr_ne i (by omega)
      · intro i hi
        by_cases hin : i = n
        · simp only [hin, if_true]; exact hgfree.1
        · simp only [hin, if_false]; exact L.fr_free i (by omega)
      · intro i j hi hj hij
        by_cases hin : i = n <;> by_cases hjn : j = n
        · omega
        · simp only [hin, hjn, if_true, if_false] at hij
          exact absurd hij (hgfree.2 j (by omega))
        · simp only [hin, hjn, if_true, if_false] at hij
          exact absurd hij.symm (hgfree.2 i (by omega))
        · simp only [hin, hjn, if_false] at hij
          exact L.fr_inj i j (by omega) (by omega) hij
      · intro x
        rw [P.free_iff, L.free_iff]
        constructor
        · rintro ⟨⟨h1, h2⟩, h3⟩
          refine ⟨h1, fun i hi => ?_⟩
          by_cases hin : i = n
          · simp only [hin, if_true]; exact h3
          · simp only [hin, if_false]; exact h2 i (by omega)
        · rintro ⟨h1, h2⟩
          refine ⟨⟨h1, fun i hi => ?_⟩, ?_⟩
          · have := h2 i (by omega)
            simpa [Nat.ne_of_lt hi] using this
          · have := h2 n (by omega)
            simpa using this
      · funext r p
        rw [P.tables_eq, L.tables_eq, loop_tables, if_pos rfl,
          loop_tables_congr cfg pt va fl _ _ s.tables n hfr]
      · intro hcr i hi k hk hne
        have hcong : loop_tables cfg pt va fl (fun i => if i = n then g else fr i) s.tables i =
            loop_tables cfg pt va fl fr s.tables i :=
          (loop_tables_congr cfg pt va fl _ _ s.tables i
            (fun j hj => hfr j (by omega))).symm
        rw [hcong]
        by_cases hin : i = n
        · subst hin
          have := P.mapped (by rw [L.cr3_eq, hcr]) k hk hne
          rwa [L.tables_eq] at this
        · exact L.mapped hcr i (by omega) k hk hne
      · intro hcr hal
        funext f o
        rw [P.mem_eq (by rw [L.cr3_eq, hcr]) (hal n (by omega)),
          L.mem_eq hcr (fun i hi => hal i (by omega)), loop_mem, if_pos rfl,
          loop_mem_congr cfg _ _ _ s.mem n hfr]
      · intro hcr f hf hno o
        have hcong : ∀ i, i ≤ n →
            loop_tables cfg pt va fl (fun i => if i = n then g else fr i) s.tables i =
            loop_tables cfg pt va fl fr s.tables i := fun i hi =>
          (loop_tables_congr cfg pt va fl _ _ s.tables i
            (fun j hj => hfr j (by omega))).symm
        have hfn : f ≠ g := by
          have := hf n (by omega)
          simpa using this
        rw [P.mem_other (by rw [L.cr3_eq, hcr]) f hfn ?_ o]
        · apply L.mem_other hcr f
          · intro i hi
            have := hf i (by omega)
            simpa [Nat.ne_of_lt hi] using this
          · intro i hi k hk e he
            rw [← hcong i (by omega)] at he
            exact hno i (by omega) k hk e he
        · intro k hk e he
          rw [L.tables_eq, ← hcong n (le_refl _)] at he
          exact hno n (by omega) k hk e he
      · intro i hi f p hm
        by_cases hin : i = n
        · subst hin
          simp only [if_true] at hm
          exact P.seek_ok f p hm
        · simp only [hin, if_false] at hm
          exact L.seek_ok i (by omega) f p hm

/-! ## The build as a whole -/

theorem stack_loop_facts (cfg : Config) (pt : Nat) (s s' : KState)
    (h : stack_loop cfg pt s = some s') :
    ∃ fr, LoopFacts cfg pt (stack_vaddr cfg) (cfg.PAGE_USER ||| cfg.PAGE_WRITE)
      (stack_events cfg pt) (fun _ _ => 0) fr cfg.CONFIG_USERLAND_STACK_SIZE.toNat s s' :=
  for_loop_facts cfg pt (stack_vaddr cfg) _ (stack_events cfg pt) (fun _ _ _ => 0) 0
    (stack_page cfg pt) (fun i t t' hb => stack_page_step cfg pt i t t' hb) _ s s' h

theorem ro_loop_facts (cfg : Config) (pt : Nat) (elf : elf_info_t) (file : Int)
    (s s' : KState) (h : ro_loop cfg pt elf file s = some s') :
    ∃ fr, LoopFacts cfg pt (seg_vaddr cfg elf.ro_vaddr) cfg.PAGE_USER
      (seg_events cfg pt file elf.ro_size elf.ro_location elf.ro_vaddr true)
      (seg_fill cfg (file_of s file) elf.ro_size elf.ro_location) fr
      (toInt32 elf.ro_pages).toNat s s' :=
  for_loop_facts cfg pt (seg_vaddr cfg elf.ro_vaddr) _
    (seg_events cfg pt file elf.ro_size elf.ro_location elf.ro_vaddr true)
    (fun d => seg_fill cfg d elf.ro_size elf.ro_location) file
    (ro_page cfg pt elf file)
    (fun i t t' hb => by
      rw [ro_page_eq] at hb
      simpa using seg_page_step cfg pt _ _ _ true file i t t' hb) _ s s' h

theorem rw_loop_facts (cfg : Config) (pt : Nat) (elf : elf_info_t) (file : Int)
    (s s' : KState) (h : rw_loop cfg pt elf file s = some s') :
    ∃ fr, LoopFacts cfg pt (seg_vaddr cfg elf.rw_vaddr) (cfg.PAGE_USER ||| cfg.PAGE_WRITE)
      (seg_events cfg pt file elf.rw_size elf.rw_location elf.rw_vaddr false)
      (seg_fill cfg (file_of s file) elf.rw_size elf.rw_location) fr
      (toInt32 elf.rw_pages).toNat s s' :=
  for_loop_facts cfg pt (seg_vaddr cfg elf.rw_vaddr) _
    (seg_events cfg pt file elf.rw_size elf.rw_location elf.rw_vaddr false)
    (fun d => seg_fill cfg d elf.rw_size elf.rw_location) file
    (rw_page cfg pt elf file)
    (fun i t t' hb => by
      rw [rw_page_eq] at hb
      simpa using seg_page_step cfg pt _ _ _ false file i t t' hb) _ s s' h

theorem build_image_facts (cfg : Config) (thread current_pml4 : Nat) (elf : elf_info_t)
    (file : Int) (stack_top : Nat) (s : KState) (r : setup_result)
    (h : build_image cfg thread current_pml4 elf file stack_top s = some r) :
    ∃ frS frN frM s3 s4 s5,
      BuildFacts cfg thread current_pml4 elf file s r frS frN frM s3 s4 s5 := by
  have h' : (stack_loop cfg s.next_table (build_start thread s)).bind (fun s3 =>
      (ro_loop cfg s.next_table elf file s3).bind (fun s4 =>
      (rw_loop cfg s.next_table elf file s4).bind (fun s5 =>
        some (⟨0, elf.entry_point, cfg.USERLAND_STACK_TOP,
          build_finish thread s.next_table current_pml4 file s.interrupts s5⟩ :
            setup_result)))) = some r := h
  obtain ⟨s3, h3, h'⟩ := Option.bind_eq_some.mp h'
  obtain ⟨s4, h4, h'⟩ := Option.bind_eq_some.mp h'
  obtain ⟨s5, h5, h'⟩ := Option.bind_eq_some.mp h'
  obtain ⟨frS, LS⟩ := stack_loop_facts cfg _ _ _ h3
  obtain ⟨frN, LN⟩ := ro_loop_facts cfg _ elf file _ _ h4
  obtain ⟨frM, LM⟩ := rw_loop_facts cfg _ elf file _ _ h5
  exact ⟨frS, frN, frM, s3, s4, s5, LS, LN, LM, (Option.some.inj h').symm, h3⟩

/-- Every call of setup_new_process that returns either returned -1 before
anything was built, the state differing only by the file system calls made,
or went through a build. -/
theorem setup_new_process_cases (cfg : Config) (thread : Nat) (executable : String)
    (argv_src : List String) (entry_point stack_top : Nat) (s : KState) (r : setup_result)
    (h : setup_new_process cfg thread executable argv_src entry_point stack_top s = some r) :
    (r.ret = -1 ∧ r.entry_point = entry_point ∧ r.stack_top = stack_top ∧
      (r.st = (vfs_open executable s).2 ∨ r.st = after_parse executable s)) ∨
    (∃ data elf, s.vfs_files executable = some data ∧ s.elf_format data = some elf ∧
      cfg.VMM_KERNEL_SPACE < elf.entry_point ∧
      build_image cfg thread (s.thread_table s.current_thread).context.virt_memory elf
        s.vfs_next stack_top (after_parse executable s) = some r) := by
  unfold setup_new_process at h
  simp only at h
  split at h
  · left
    have := (Option.some.inj h).symm
    subst this
    exact ⟨rfl, rfl, rfl, Or.inl rfl⟩
  · rename_i hfile
    split at h
    · left
      have := (Option.some.inj h).symm
      subst this
      exact ⟨rfl, rfl, rfl, Or.inr rfl⟩
    · rename_i hres
      split at h
      · left
        have := (Option.some.inj h).symm
        subst this
        exact ⟨rfl, rfl, rfl, Or.inr rfl⟩
      · rename_i hentry
        right
        cases hd : s.vfs_files executable with
        | none => simp [vfs_open, hd] at hfile
        | some data =>
          have hfd : (vfs_open executable s).1 = s.vfs_next := by simp [vfs_open, hd]
          cases he : s.elf_format data with
          | none =>
            exfalso; apply hres
            simp [elf_parse_header, vfs_open, hd, he, emit, tick]
          | some elf =>
            have helf : (elf_parse_header (vfs_open executable s).1
                (vfs_open executable s).2).2.1 = elf := by
              simp [elf_parse_header, vfs_open, hd, he, emit, tick]
            rw [helf] at hentry h
            rw [hfd] at h
            refine ⟨data, elf, rfl, he, by omega, ?_⟩
            simpa [after_parse, thread_get_current_thread, hfd] using h

/-! ## States at the start and at the end of a build -/

theorem after_parse_eq (executable : String) (s : KState) (data : file_data)
    (elf : elf_info_t) (hfile : s.vfs_files executable = some data)
    (hparse : s.elf_format data = some elf) :
    after_parse executable s =
      { s with
        openfiles := fun h => if h = (s.vfs_next : Int) then some ⟨data, 0⟩ else s.openfiles h
        vfs_next := s.vfs_next + 1
        log := s.log ++ [Event.vfs_open executable s.vfs_next,
          Event.elf_parse_header s.vfs_next 0]
        hist := s.hist ++ [snapshot s, snapshot s] } := by
  simp [after_parse, vfs_open, elf_parse_header, hfile, hparse, emit, tick, snapshot]

theorem early_state_frame (executable : String) (s t : KState)
    (ht : t = (vfs_open executable s).2 ∨ t = after_parse executable s) :
    t.cr3 = s.cr3 ∧ t.thread_table = s.thread_table ∧ t.tables = s.tables ∧
    t.physmem_free = s.physmem_free ∧ t.interrupts = s.interrupts ∧
    t.current_thread = s.current_thread ∧ t.next_table = s.next_table ∧
    (∃ l, t.hist = s.hist ++ l ∧ ∀ x ∈ l, x = snapshot s) ∧
    (∃ evs, t.log = s.log ++ evs ∧ ∀ e ∈ evs,
      (∃ f, e = Event.vfs_open executable f) ∨ (∃ f res, e = Event.elf_parse_header f res)) := by
  rcases ht with ht | ht
  · subst ht
    unfold vfs_open
    split
    · exact ⟨rfl, rfl, rfl, rfl, rfl, rfl, rfl, ⟨[snapshot s], rfl, by simp⟩,
        ⟨[_], rfl, by simp⟩⟩
    · exact ⟨rfl, rfl, rfl, rfl, rfl, rfl, rfl, ⟨[snapshot s], rfl, by simp⟩,
        ⟨[_], rfl, by simp⟩⟩
  · subst ht
    unfold after_parse vfs_open
    split
    · unfold elf_parse_header
      split
      · exact ⟨rfl, rfl, rfl, rfl, rfl, rfl, rfl,
          ⟨[snapshot s, snapshot s], by simp [emit, tick, snapshot], by simp⟩,
          ⟨_, List.append_assoc _ _ _, by simp⟩⟩
      · exact ⟨rfl, rfl, rfl, rfl, rfl, rfl, rfl,
          ⟨[snapshot s, snapshot s], by simp [emit, tick, snapshot], by simp⟩,
          ⟨_, List.append_assoc _ _ _, by simp⟩⟩
    · unfold elf_parse_header
      split
      · exact ⟨rfl, rfl, rfl, rfl, rfl, rfl, rfl,
          ⟨[snapshot s, snapshot s], by simp [emit, tick, snapshot], by simp⟩,
          ⟨_, List.append_assoc _ _ _, by simp⟩⟩
      · exact ⟨rfl, rfl, rfl, rfl, rfl, rfl, rfl,
          ⟨[snapshot s, snapshot s], by simp [emit, tick, snapshot], by simp⟩,
          ⟨_, List.append_assoc _ _ _, by simp⟩⟩

theorem build_start_eq (thread : Nat) (s : KState) :
    build_start thread s =
      { s with
        cr3 := s.next_table
        interrupts := false
        tables := fun r => if r = s.next_table then (fun _ => none) else s.tables r
        next_table := s.next_table + 1
        thread_table := fun t =>
          if t = thread then { s.thread_table t with pagetable := s.next_table }
          else s.thread_table t
        log := s.log ++ [Event.vm_create_pagetable thread s.next_table,
          Event.interrupt_disable, Event.process_set_pagetable s.next_table]
        hist := s.hist ++ [snapshot s, ⟨false, s.cr3, (snapshot s).recorded⟩,
          ⟨false, s.next_table, (snapshot s).recorded⟩,
          ⟨false, s.next_table, (snapshot s).recorded⟩] } := by
  simp only [build_start, set_entry_pagetable, process_set_pagetable, _interrupt_disable,
    vm_create_pagetable, emit, tick, snapshot, List.append_assoc, List.singleton_append,
    KState.mk.injEq, true_and, and_true, List.cons_append, List.nil_append]
  simp only [List.append_cancel_left_eq, List.cons.injEq, Snapshot.mk.injEq, true_and,
    and_true]
  by_cases h : s.current_thread = thread <;> simp [h]

theorem build_finish_eq (thread pt pml4 : Nat) (file : Int) (intr : Bool) (s5 : KState) :
    build_finish thread pt pml4 file intr s5 =
      { s5 with
        cr3 := pml4
        interrupts := intr
        openfiles := fun h => if h = file then none else s5.openfiles h
        thread_table := fun t =>
          if t = thread then
            { s5.thread_table t with
              context := { (s5.thread_table t).context with pml4 := pt, virt_memory := pt } }
          else s5.thread_table t
        log := s5.log ++ [Event.vfs_close file, Event.process_set_pagetable pml4,
          Event.interrupt_set_state intr]
        hist := s5.hist ++ [snapshot s5, ⟨s5.interrupts, pml4, (snapshot s5).recorded⟩,
          ⟨s5.interrupts, pml4,
            if s5.current_thread = thread then pt else (snapshot s5).recorded⟩,
          ⟨intr, pml4,
            if s5.current_thread = thread then pt else (snapshot s5).recorded⟩] } := by
  simp only [build_finish, _interrupt_set_state, set_entry_context, process_set_pagetable,
    vfs_close, emit, tick, snapshot, List.append_assoc, List.singleton_append,
    KState.mk.injEq, true_and, and_true, List.cons_append, List.nil_append]
  simp only [List.append_cancel_left_eq, List.cons.injEq, Snapshot.mk.injEq, true_and,
    and_true]
  by_cases h : s5.current_thread = thread <;> simp [h]

theorem new_events_of_append (s s' : KState) (evs : List Event)
    (h : s'.log = s.log ++ evs) : new_events s s' = evs := by
  simp [new_events, h]

theorem new_snapshots_of_append (s s' : KState) (l : List Snapshot)
    (h : s'.hist = s.hist ++ l) : new_snapshots s s' = l := by
  simp [new_snapshots, h]

theorem build_log (cfg : Config) (thread pml4 : Nat) (elf : elf_info_t) (file : Int)
    (s : KState) (r : setup_result) (frS frN frM : Nat → Nat) (s3 s4 s5 : KState)
    (B : BuildFacts cfg thread pml4 elf file s r frS frN frM s3 s4 s5) :
    r.st.log = s.log ++
      build_trace cfg thread s.next_table pml4 elf file s.interrupts frS frN frM := by
  rw [B.result]
  simp only [build_finish_eq, B.rw.log_eq, B.ro.log_eq, B.stack.log_eq, build_start_eq,
    build_trace, List.append_assoc]

/-- A successful call went through a build that started in the state after
opening and parsing. -/
theorem setup_success (cfg : Config) (thread : Nat) (executable : String)
    (argv_src : List String) (entry_point stack_top : Nat) (s : KState) (r : setup_result)
    (data : file_data) (elf : elf_info_t)
    (hfile : s.vfs_files executable = some data) (hparse : s.elf_format data = some elf)
    (h : setup_new_process cfg thread executable argv_src entry_point stack_top s = some r)
    (hret : r.ret = 0) :
    cfg.VMM_KERNEL_SPACE < elf.entry_point ∧
    ∃ frS frN frM s3 s4 s5,
      BuildFacts cfg thread (s.thread_table s.current_thread).context.virt_memory elf
        s.vfs_next (after_parse executable s) r frS frN frM s3 s4 s5 := by
  rcases setup_new_process_cases cfg thread executable argv_src entry_point stack_top s r h
    with ⟨hneg, _⟩ | ⟨data', elf', hf', hp', hentry, hb⟩
  · rw [hret] at hneg; exact absurd hneg (by decide)
  · rw [hfile] at hf'
    have hd := Option.some.inj hf'
    subst hd
    rw [hparse] at hp'
    have he := Option.some.inj hp'
    subst he
    exact ⟨hentry, build_image_facts cfg thread _ elf _ stack_top _ r hb⟩

theorem setup_new_process_parsed (cfg : Config) (thread : Nat) (executable : String)
    (argv_src : List String) (entry_point stack_top : Nat) (s : KState)
    (data : file_data) (elf : elf_info_t)
    (hfile : s.vfs_files executable = some data) (hparse : s.elf_format data = some elf) :
    setup_new_process cfg thread executable argv_src entry_point stack_top s =
      if elf.entry_point ≤ cfg.VMM_KERNEL_SPACE then
        some ⟨-1, entry_point, stack_top, after_parse executable s⟩
      else build_image cfg thread (s.thread_table s.current_thread).context.virt_memory elf
        s.vfs_next stack_top (after_parse executable s) := by
  have hopen : (vfs_open executable s).1 = s.vfs_next := by simp [vfs_open, hfile]
  have hp : elf_parse_header (s.vfs_next : Int) (vfs_open executable s).2 =
      (0, elf, after_parse executable s) := by
    simp [after_parse, elf_parse_header, vfs_open, hfile, hparse, emit, tick]
  unfold setup_new_process
  simp only [hopen, hp]
  rw [if_neg (by omega), if_neg (by decide)]
  rfl

theorem build_thread_table (cfg : Config) (thread pml4 : Nat) (elf : elf_info_t)
    (file : Int) (s : KState) (r : setup_result) (frS frN frM : Nat → Nat)
    (s3 s4 s5 : KState)
    (B : BuildFacts cfg thread pml4 elf file s r frS frN frM s3 s4 s5) :
    r.st.thread_table = fun t =>
      if t = thread then
        { context := ⟨(s.thread_table t).context.ip, (s.thread_table t).context.sp,
            s.next_table, s.next_table⟩
          pagetable := s.next_table }
      else s.thread_table t := by
  rw [B.result]
  simp only [build_finish_eq, B.rw.thread_table_eq, B.ro.thread_table_eq,
    B.stack.thread_table_eq, build_start_eq]
  funext t
  by_cases h : t = thread <;> simp [h]

theorem build_cr3 (cfg : Config) (thread pml4 : Nat) (elf : elf_info_t)
    (file : Int) (s : KState) (r : setup_result) (frS frN frM : Nat → Nat)
    (s3 s4 s5 : KState)
    (B : BuildFacts cfg thread pml4 elf file s r frS frN frM s3 s4 s5) :
    r.st.cr3 = pml4 ∧ r.st.interrupts = s.interrupts ∧
      r.st.current_thread = s.current_thread := by
  rw [B.result]
  simp only [build_finish_eq, B.rw.current_eq, B.ro.current_eq,
    B.stack.current_eq, build_start_eq, and_self]

/-- The scenario builds successfully. -/
theorem scenario_succeeds :
    ∃ r, setup_new_process cfg0 0 "prog" [] 0 0 s0 = some r ∧ r.ret = 0 := by
  have h : (setup_new_process cfg0 0 "prog" [] 0 0 s0).map (fun r => r.ret) = some 0 := by
    rfl
  cases hr : setup_new_process cfg0 0 "prog" [] 0 0 s0 with
  | none => rw [hr] at h; exact Option.noConfusion h
  | some r =>
    rw [hr] at h
    exact ⟨r, rfl, Option.some.inj h⟩

/-! ## Claims about the return paths -/

/-- C1 (the code does not do this): on the parse-failure path and on the
invalid-entry-point path setup_new_process returns -1 with the file handle it
opened still open, and without having called vfs_close. -/
theorem setup_new_process_leaks_file_on_failure :
    (setup_new_process cfg0 0 "prog" [] 0 0 s0_bad_format).map
        (fun r => (r.ret, (r.st.openfiles 3).isSome, r.st.log)) =
      some (-1, true, [Event.vfs_open "prog" 3, Event.elf_parse_header 3 (-1)]) ∧
    (setup_new_process cfg0 0 "prog" [] 0 0 s0_low_entry).map
        (fun r => (r.ret, (r.st.openfiles 3).isSome, r.st.log)) =
      some (-1, true, [Event.vfs_open "prog" 3, Event.elf_parse_header 3 0]) := by
  constructor <;> rfl

/-- C2: when the executable opens and parses but its entry address is at or
below the kernel/user boundary, setup_new_process returns -1, makes no service
call besides vfs_open and elf_parse_header (so no frame is allocated and no
page table is created or installed), leaves the page tables, the live root,
the allocator and the whole thread table unchanged and does not write the two
output cells; when the entry address is above the boundary, a call that
returns returns 0, not -1. -/
theorem setup_new_process_entry_check (cfg : Config) (thread : Nat) (executable : String)
    (argv_src : List String) (entry_point stack_top : Nat) (s : KState)
    (data : file_data) (elf : elf_info_t)
    (hfile : s.vfs_files executable = some data) (hparse : s.elf_format data = some elf) :
    (elf.entry_point ≤ cfg.VMM_KERNEL_SPACE →
      ∃ r, setup_new_process cfg thread executable argv_src entry_point stack_top s = some r ∧
        r.ret = -1 ∧ r.entry_point = entry_point ∧ r.stack_top = stack_top ∧
        new_events s r.st =
          [Event.vfs_open executable s.vfs_next, Event.elf_parse_header s.vfs_next 0] ∧
        alloc_calls (new_events s r.st) = 0 ∧
        r.st.physmem_free = s.physmem_free ∧ r.st.tables = s.tables ∧
        r.st.next_table = s.next_table ∧ r.st.cr3 = s.cr3 ∧
        r.st.thread_table = s.thread_table) ∧
    (cfg.VMM_KERNEL_SPACE < elf.entry_point →
      ∀ r, setup_new_process cfg thread executable argv_src entry_point stack_top s = some r →
        r.ret = 0 ∧ r.ret ≠ -1) := by
  have hap := after_parse_eq executable s data elf hfile hparse
  have hrun := setup_new_process_parsed cfg thread executable argv_src entry_point
    stack_top s data elf hfile hparse
  constructor
  · intro hle
    refine ⟨⟨-1, entry_point, stack_top, after_parse executable s⟩, ?_, rfl, rfl, rfl, ?_⟩
    · rw [hrun, if_pos hle]
    · have hlog : (after_parse executable s).log = s.log ++
          [Event.vfs_open executable s.vfs_next, Event.elf_parse_header s.vfs_next 0] := by
        rw [hap]
      simp only [new_events_of_append s _ _ hlog]
      refine ⟨trivial, rfl, ?_, ?_, ?_, ?_, ?_⟩ <;> rw [hap]
  · intro hgt r h
    rw [hrun, if_neg (by omega)] at h
    obtain ⟨_, _, _, _, _, _, B⟩ := build_image_facts cfg thread _ elf _ stack_top _ r h
    rw [B.result]
    exact ⟨rfl, by simp⟩

/-- C3: for every call of setup_new_process that returns, if at entry the
live page table root is the one recorded in the calling thread's entry, the
live root at return is the live root at entry; on the successful path the new
table was installed by process_set_pagetable and the last installation before
return is that of the caller's original table. -/
theorem setup_new_process_restores_root (cfg : Config) (thread : Nat) (executable : String)
    (argv_src : List String) (entry_point stack_top : Nat) (s : KState) (r : setup_result)
    (hrec : s.cr3 = (s.thread_table s.current_thread).context.virt_memory)
    (h : setup_new_process cfg thread executable argv_src entry_point stack_top s = some r) :
    r.st.cr3 = s.cr3 ∧
    (r.ret = 0 → ∃ pt pre mid file,
      new_events s r.st = pre ++ [Event.process_set_pagetable pt] ++ mid ++
        [Event.vfs_close file, Event.process_set_pagetable s.cr3,
          Event.interrupt_set_state s.interrupts]) := by
  rcases setup_new_process_cases cfg thread executable argv_src entry_point stack_top s r h
    with ⟨hneg, _, _, hst⟩ | ⟨data, elf, hf, hp, hentry, hb⟩
  · refine ⟨(early_state_frame executable s r.st hst).1, ?_⟩
    intro h0; rw [h0] at hneg; exact absurd hneg (by decide)
  · obtain ⟨frS, frN, frM, s3, s4, s5, B⟩ :=
      build_image_facts cfg thread _ elf _ stack_top _ r hb
    have hap := after_parse_eq executable s data elf hf hp
    constructor
    · rw [B.result, build_finish_eq, hrec]
    · intro _
      have hlog := build_log cfg thread _ elf _ _ r frS frN frM s3 s4 s5 B
      have hl2 : r.st.log = s.log ++ ([Event.vfs_open executable s.vfs_next,
          Event.elf_parse_header s.vfs_next 0] ++
          build_trace cfg thread s.next_table
            (s.thread_table s.current_thread).context.virt_memory elf s.vfs_next
            s.interrupts frS frN frM) := by
        rw [hlog, hap]; simp
      rw [new_events_of_append s _ _ hl2, ← hrec]
      refine ⟨s.next_table, [Event.vfs_open executable s.vfs_next,
          Event.elf_parse_header s.vfs_next 0, Event.vm_create_pagetable thread s.next_table,
          Event.interrupt_disable],
        loop_events (stack_events cfg s.next_table) frS
            cfg.CONFIG_USERLAND_STACK_SIZE.toNat
          ++ loop_events (seg_events cfg s.next_table s.vfs_next elf.ro_size elf.ro_location
              elf.ro_vaddr true) frN (toInt32 elf.ro_pages).toNat
          ++ loop_events (seg_events cfg s.next_table s.vfs_next elf.rw_size elf.rw_location
              elf.rw_vaddr false) frM (toInt32 elf.rw_pages).toNat,
        s.vfs_next, ?_⟩
      have e1 : (after_parse executable s).next_table = s.next_table := by rw [hap]
      have e2 : (after_parse executable s).interrupts = s.interrupts := by rw [hap]
      simp only [build_trace, List.append_assoc, List.cons_append, List.nil_append]

/-- C9: a successful call of setup_new_process returns 0 with the entry
address reported by the ELF parser in the entry point cell and the constant
USERLAND_STACK_TOP in the stack top cell, whatever the segment geometry and
the file contents. -/
theorem setup_new_process_outputs (cfg : Config) (thread : Nat) (executable : String)
    (argv_src : List String) (entry_point stack_top : Nat) (s : KState) (r : setup_result)
    (data : file_data) (elf : elf_info_t)
    (hfile : s.vfs_files executable = some data) (hparse : s.elf_format data = some elf)
    (h : setup_new_process cfg thread executable argv_src entry_point stack_top s = some r)
    (hret : r.ret = 0) :
    r.entry_point = elf.entry_point ∧ r.stack_top = cfg.USERLAND_STACK_TOP := by
  obtain ⟨_, _, _, _, _, _, _, B⟩ := setup_success cfg thread executable argv_src entry_point
    stack_top s r data elf hfile hparse h hret
  rw [B.result]
  exact ⟨rfl, rfl⟩

theorem setup_new_process_entry_check_witness :
    s0_low_entry.vfs_files "prog" = some file0 ∧
    s0_low_entry.elf_format file0 = some elf_low ∧
    elf_low.entry_point ≤ cfg0.VMM_KERNEL_SPACE ∧
    ∃ r, setup_new_process cfg0 0 "prog" [] 7 9 s0_low_entry = some r ∧
      r.ret = -1 ∧ r.entry_point = 7 ∧ r.stack_top = 9 ∧
      alloc_calls (new_events s0_low_entry r.st) = 0 ∧
      r.st.thread_table = s0_low_entry.thread_table :=
  ⟨rfl, rfl, by decide,
    match (setup_new_process_entry_check cfg0 0 "prog" [] 7 9 s0_low_entry file0 elf_low
      rfl rfl).1 (by decide) with
    | ⟨r, h, h1, h2, h3, _, h5, _, _, _, _, h10⟩ => ⟨r, h, h1, h2, h3, h5, h10⟩⟩

theorem setup_new_process_restores_root_witness :
    s0.cr3 = (s0.thread_table s0.current_thread).context.virt_memory ∧
    ∃ r, setup_new_process cfg0 0 "prog" [] 0 0 s0 = some r ∧ r.st.cr3 = 100 :=
  ⟨rfl,
    match scenario_succeeds with
    | ⟨r, h, _⟩ =>
      ⟨r, h, (setup_new_process_restores_root cfg0 0 "prog" [] 0 0 s0 r rfl h).1⟩⟩

theorem setup_new_process_outputs_witness :
    ∃ r, setup_new_process cfg0 0 "prog" [] 0 0 s0 = some r ∧ r.ret = 0 ∧
      r.entry_point = 0x400000 ∧ r.stack_top = 0x8000000 :=
  match scenario_succeeds with
  | ⟨r, h, hret⟩ =>
    ⟨r, h, hret,
      setup_new_process_outputs cfg0 0 "prog" [] 0 0 s0 r file0 elf0 rfl rfl h hret⟩

/-! ## Claims about process_start -/

/-- C10: process_start enters user mode exactly when setup_new_process for
the current thread returned 0.  When it returned another value process_start
returns in the state setup_new_process left, with no further service call
(no root switch, no transfer).  When it returned 0, the calls that follow are
memoryset on user_context, vmm_setcr3 and thread_goto_userland, in this order;
the memoryset leaves user_context all-zero whatever it held before, so the
context handed to thread_goto_userland is zero except for the instruction
pointer, which is the returned entry address, and the stack pointer, which is
the returned stack top; and the call before the transfer is the vmm_setcr3 that
makes the live root the page table that this build created and stored in the
current thread's entry. -/
theorem process_start_spec (cfg : Config) (executable : String) (argv : List String)
    (e0 t0 uc : Nat) (c0 : context_t) (s : KState) :
    ((∃ c s', process_start cfg executable argv e0 t0 uc c0 s =
        start_result.userland c s') ↔
      ∃ r, setup_new_process cfg s.current_thread executable argv e0 t0 s = some r ∧
        r.ret = 0) ∧
    (∀ r, setup_new_process cfg s.current_thread executable argv e0 t0 s = some r →
      r.ret ≠ 0 →
      process_start cfg executable argv e0 t0 uc c0 s = start_result.returned r.st) ∧
    (∀ r, setup_new_process cfg s.current_thread executable argv e0 t0 s = some r →
      r.ret = 0 →
      ∃ pt s',
        process_start cfg executable argv e0 t0 uc c0 s =
          start_result.userland ⟨r.entry_point, r.stack_top, 0, 0⟩ s' ∧
        (memoryset_context uc 0 cfg.sizeof_context_t c0 r.st).1 = ⟨0, 0, 0, 0⟩ ∧
        Event.vm_create_pagetable s.current_thread pt ∈ new_events s r.st ∧
        (r.st.thread_table s.current_thread).pagetable = pt ∧
        (r.st.thread_table s.current_thread).context.pml4 = pt ∧
        new_events r.st s' = [Event.memoryset uc 0 cfg.sizeof_context_t,
          Event.vmm_setcr3 pt,
          Event.thread_goto_userland ⟨r.entry_point, r.stack_top, 0, 0⟩] ∧
        s'.cr3 = pt ∧
        s'.cr3 = (s'.thread_table s'.current_thread).context.virt_memory) := by
  have hret : ∀ r, setup_new_process cfg s.current_thread executable argv e0 t0 s = some r →
      r.ret ≠ 0 →
      process_start cfg executable argv e0 t0 uc c0 s = start_result.returned r.st := by
    intro r h hne
    unfold process_start
    simp only [thread_get_current_thread, h]
    rw [if_pos hne]
  have hgo : ∀ r, setup_new_process cfg s.current_thread executable argv e0 t0 s = some r →
      r.ret = 0 →
      process_start cfg executable argv e0 t0 uc c0 s =
        start_result.userland ⟨r.entry_point, r.stack_top, 0, 0⟩
          (emit (Event.thread_goto_userland ⟨r.entry_point, r.stack_top, 0, 0⟩)
            (vmm_setcr3 (r.st.thread_table s.current_thread).context.pml4
              (emit (Event.memoryset uc 0 cfg.sizeof_context_t) r.st))) := by
    intro r h h0
    unfold process_start
    simp only [thread_get_current_thread, h]
    rw [if_neg (by simp [h0])]
    rfl
  refine ⟨⟨?_, ?_⟩, hret, ?_⟩
  · rintro ⟨c, s', hps⟩
    cases hr : setup_new_process cfg s.current_thread executable argv e0 t0 s with
    | none =>
      unfold process_start at hps
      simp only [thread_get_current_thread, hr] at hps
      exact start_result.noConfusion hps
    | some r =>
      by_cases h0 : r.ret = 0
      · exact ⟨r, rfl, h0⟩
      · rw [hret r hr h0] at hps
        exact start_result.noConfusion hps
  · rintro ⟨r, h, h0⟩
    exact ⟨_, _, hgo r h h0⟩
  · intro r h h0
    rcases setup_new_process_cases cfg s.current_thread executable argv e0 t0 s r h
      with ⟨hneg, _⟩ | ⟨data, elf, hf, hp, hentry, hb⟩
    · rw [h0] at hneg; exact absurd hneg (by decide)
    · obtain ⟨frS, frN, frM, s3, s4, s5, B⟩ :=
        build_image_facts cfg s.current_thread _ elf _ t0 _ r hb
      have hap := after_parse_eq executable s data elf hf hp
      have e1 : (after_parse executable s).next_table = s.next_table := by rw [hap]
      have e3 : (after_parse executable s).current_thread = s.current_thread := by rw [hap]
      have htt := build_thread_table cfg _ _ elf _ _ r frS frN frM s3 s4 s5 B
      have hcur := (build_cr3 cfg _ _ elf _ _ r frS frN frM s3 s4 s5 B).2.2
      have hlog := build_log cfg _ _ elf _ _ r frS frN frM s3 s4 s5 B
      have hl2 : r.st.log = s.log ++ ([Event.vfs_open executable s.vfs_next,
          Event.elf_parse_header s.vfs_next 0] ++
          build_trace cfg s.current_thread s.next_table
            (s.thread_table s.current_thread).context.virt_memory elf s.vfs_next
            s.interrupts frS frN frM) := by
        rw [hlog, hap]; simp
      have hpml4 : (r.st.thread_table s.current_thread).context.pml4 = s.next_table := by
        rw [htt]; simp [e1]
      refine ⟨s.next_table, _, hgo r h h0, rfl, ?_, ?_, hpml4, ?_, ?_, ?_⟩
      · rw [new_events_of_append s _ _ hl2]
        simp [build_trace]
      · rw [htt]; simp [e1]
      · rw [hpml4]
        simp [new_events, emit, tick, vmm_setcr3]
      · rw [hpml4]
        simp [emit, tick, vmm_setcr3]
      · rw [hpml4]
        simp only [emit, tick, vmm_setcr3]
        rw [hcur, e3, htt]
        simp [e1]

theorem process_start_spec_witness :
    ∃ c s', process_start cfg0 "prog" [] 0 0 0x1000 ⟨7, 7, 7, 7⟩ s0 =
      start_result.userland c s' :=
  (process_start_spec cfg0 "prog" [] 0 0 0x1000 ⟨7, 7, 7, 7⟩ s0).1.mpr scenario_succeeds

/-! ## Frames consumed by a build -/

/-- The service calls of a successful call, and the new page table. -/
theorem setup_trace (cfg : Config) (thread : Nat) (executable : String)
    (argv_src : List String) (entry_point stack_top : Nat) (s : KState) (r : setup_result)
    (data : file_data) (elf : elf_info_t)
    (hfile : s.vfs_files executable = some data) (hparse : s.elf_format data = some elf)
    (h : setup_new_process cfg thread executable argv_src entry_point stack_top s = some r)
    (hret : r.ret = 0) :
    (r.st.thread_table thread).pagetable = s.next_table ∧
    ∃ frS frN frM s3 s4 s5,
      BuildFacts cfg thread (s.thread_table s.current_thread).context.virt_memory elf
        s.vfs_next (after_parse executable s) r frS frN frM s3 s4 s5 ∧
      new_events s r.st = [Event.vfs_open executable s.vfs_next,
          Event.elf_parse_header s.vfs_next 0] ++
        build_trace cfg thread s.next_table
          (s.thread_table s.current_thread).context.virt_memory elf s.vfs_next
          s.interrupts frS frN frM := by
  obtain ⟨_, frS, frN, frM, s3, s4, s5, B⟩ := setup_success cfg thread executable argv_src
    entry_point stack_top s r data elf hfile hparse h hret
  have hap := after_parse_eq executable s data elf hfile hparse
  have htt := build_thread_table cfg _ _ elf _ _ r frS frN frM s3 s4 s5 B
  have hlog := build_log cfg _ _ elf _ _ r frS frN frM s3 s4 s5 B
  refine ⟨?_, frS, frN, frM, s3, s4, s5, B, ?_⟩
  · rw [htt, hap]; simp
  · apply new_events_of_append
    rw [hlog, hap]; simp

/-- The snapshots recorded by a build: all but the last are taken with
interrupts masked or before anything observable changed; the last is the
state at return. -/
theorem build_snapshots (cfg : Config) (thread pml4 : Nat) (elf : elf_info_t) (file : Int)
    (s : KState) (r : setup_result) (frS frN frM : Nat → Nat) (s3 s4 s5 : KState)
    (B : BuildFacts cfg thread pml4 elf file s r frS frN frM s3 s4 s5) :
    ∃ pre, r.st.hist = s.hist ++ (pre ++ [snapshot r.st]) ∧
      (∀ x ∈ pre, x = snapshot s ∨ x.interrupts = false) ∧
      snapshot r.st = ⟨s.interrupts, pml4,
        if s.current_thread = thread then s.next_table
        else (s.thread_table s.current_thread).context.virt_memory⟩ := by
  obtain ⟨lS, hlS, hxS⟩ := B.stack.hist_eq
  obtain ⟨lN, hlN, hxN⟩ := B.ro.hist_eq
  obtain ⟨lM, hlM, hxM⟩ := B.rw.hist_eq
  have hi2 : (build_start thread s).interrupts = false := by rw [build_start_eq]
  have hi3 : s3.interrupts = false := by rw [B.stack.interrupts_eq, hi2]
  have hi4 : s4.interrupts = false := by rw [B.ro.interrupts_eq, hi3]
  have hi5 : s5.interrupts = false := by rw [B.rw.interrupts_eq, hi4]
  have hc5 : s5.current_thread = s.current_thread := by
    rw [B.rw.current_eq, B.ro.current_eq, B.stack.current_eq, build_start_eq]
  have ht5 : (s5.thread_table s.current_thread).context.virt_memory =
      (s.thread_table s.current_thread).context.virt_memory := by
    rw [B.rw.thread_table_eq, B.ro.thread_table_eq, B.stack.thread_table_eq,
      build_start_eq]
    by_cases hct : s.current_thread = thread <;> simp [hct]
  have hsnap : snapshot r.st = ⟨s.interrupts, pml4,
      if s.current_thread = thread then s.next_table
      else (s.thread_table s.current_thread).context.virt_memory⟩ := by
    rw [B.result, build_finish_eq]
    simp only [snapshot, hc5, Snapshot.mk.injEq, true_and]
    by_cases hct : s.current_thread = thread
    · simp [hct]
    · simp only [hct, if_false]
      exact ht5
  refine ⟨[snapshot s, ⟨false, s.cr3, (snapshot s).recorded⟩,
      ⟨false, s.next_table, (snapshot s).recorded⟩,
      ⟨false, s.next_table, (snapshot s).recorded⟩] ++ lS ++ lN ++ lM ++
      [snapshot s5, ⟨s5.interrupts, pml4, (snapshot s5).recorded⟩,
       ⟨s5.interrupts, pml4,
          if s5.current_thread = thread then s.next_table else (snapshot s5).recorded⟩],
    ?_, ?_, hsnap⟩
  · rw [hsnap]
    rw [B.result, build_finish_eq]
    simp only [hlM, hlN, hlS, build_start_eq, List.append_assoc, List.cons_append,
      List.nil_append, hc5, snapshot, ht5]
  · intro x hx
    rcases List.mem_append.mp hx with hx | hx
    · rcases List.mem_append.mp hx with hx | hx
      · rcases List.mem_append.mp hx with hx | hx
        · rcases List.mem_append.mp hx with hx | hx
          · simp only [List.mem_cons, List.mem_nil_iff, or_false] at hx
            rcases hx with hx | hx | hx | hx
            · exact Or.inl hx
            · right; rw [hx]
            · right; rw [hx]
            · right; rw [hx]
          · right; rw [hxS x hx]; simpa [snapshot] using hi2
        · right; rw [hxN x hx]; simpa [snapshot] using hi3
      · right; rw [hxM x hx]; simpa [snapshot] using hi4
    · simp only [List.mem_cons, List.mem_nil_iff, or_false] at hx
      rcases hx with hx | hx | hx
      · right; rw [hx]; simpa [snapshot] using hi5
      · right; rw [hx]; exact hi5
      · right; rw [hx]; exact hi5

/-- C4 (what the code does not do): in the primary case, target thread equal
to the calling thread, the state in which setup_new_process returns has
interrupts enabled, the caller's original root 100 live, and the new page
table 101 recorded in the running thread's entry, although live root and
recorded address space agreed at entry. -/
theorem setup_new_process_root_mismatch :
    s0.cr3 = (s0.thread_table s0.current_thread).context.virt_memory ∧
    (setup_new_process cfg0 s0.current_thread "prog" [] 0 0 s0).map
        (fun r => (r.ret, snapshot r.st, r.st.hist.getLast?)) =
      some (0, ⟨true, 100, 101⟩, some ⟨true, 100, 101⟩) ∧
    ¬ consistent ⟨true, 100, 101⟩ := by
  refine ⟨rfl, by rfl, ?_⟩
  intro h
  exact absurd (h rfl) (by decide)

/-- C4, amended: if live root and recorded address space of the calling thread
agree at entry, then at every point of setup_new_process where interrupts are
enabled they agree, provided the target thread is not the calling thread or
the call fails.  In any successful call they agree at every point before the
return, the state at return being the only one recorded with interrupts
possibly enabled after the new table was installed; there the live root is the
caller's original table and the recorded address space is the new table when
the target is the calling thread.  In process_start with a successful build
this mismatch lasts until vmm_setcr3: the state after the memoryset of
user_context still has the caller's original root live and the new table
recorded, and from vmm_setcr3 on live root and recorded address space are
both the new table. -/
theorem setup_new_process_root_consistency (cfg : Config) (thread : Nat)
    (executable : String) (argv_src : List String) (entry_point stack_top : Nat)
    (s : KState) (r : setup_result)
    (hrec : s.cr3 = (s.thread_table s.current_thread).context.virt_memory)
    (h : setup_new_process cfg thread executable argv_src entry_point stack_top s = some r) :
    ((thread ≠ s.current_thread ∨ r.ret ≠ 0) →
      ∀ x ∈ new_snapshots s r.st, consistent x) ∧
    (r.ret = 0 → ∃ pre, new_snapshots s r.st = pre ++ [snapshot r.st] ∧
      (∀ x ∈ pre, consistent x) ∧
      snapshot r.st = ⟨s.interrupts, s.cr3,
        if s.current_thread = thread then (r.st.thread_table thread).pagetable
        else s.cr3⟩) ∧
    (thread = s.current_thread → ∀ uc c0 c s',
      process_start cfg executable argv_src entry_point stack_top uc c0 s =
        start_result.userland c s' →
      new_snapshots r.st s' =
        [⟨s.interrupts, s.cr3, (r.st.thread_table thread).pagetable⟩,
          ⟨s.interrupts, (r.st.thread_table thread).pagetable,
            (r.st.thread_table thread).pagetable⟩,
          ⟨s.interrupts, (r.st.thread_table thread).pagetable,
            (r.st.thread_table thread).pagetable⟩]) := by
  have hsnap0 : consistent (snapshot s) := by
    intro _; simp only [snapshot]; exact hrec
  rcases setup_new_process_cases cfg thread executable argv_src entry_point stack_top s r h
    with ⟨hneg, _, _, hst⟩ | ⟨data, elf, hf, hp, hentry, hb⟩
  · obtain ⟨_, _, _, _, _, _, _, ⟨l, hl, hx⟩, _⟩ := early_state_frame executable s r.st hst
    refine ⟨?_, ?_, ?_⟩
    · intro _ x hxm
      rw [new_snapshots_of_append s _ _ hl] at hxm
      rw [hx x hxm]; exact hsnap0
    · intro h0; rw [h0] at hneg; exact absurd hneg (by decide)
    · intro ht uc c0 c s' hps
      exfalso
      subst ht
      unfold process_start at hps
      simp only [thread_get_current_thread, h] at hps
      rw [if_pos (by rw [hneg]; decide)] at hps
      exact start_result.noConfusion hps
  · obtain ⟨frS, frN, frM, s3, s4, s5, B⟩ :=
      build_image_facts cfg thread _ elf _ stack_top _ r hb
    have hap := after_parse_eq executable s data elf hf hp
    have hret0 : r.ret = 0 := by rw [B.result]
    have htt := build_thread_table cfg _ _ elf _ _ r frS frN frM s3 s4 s5 B
    have hpt : (r.st.thread_table thread).pagetable = s.next_table := by
      rw [htt, hap]; simp
    obtain ⟨pre, hpre, hxpre, hlast⟩ :=
      build_snapshots cfg _ _ elf _ _ r frS frN frM s3 s4 s5 B
    have hsnap1 : snapshot (after_parse executable s) = snapshot s := by
      rw [hap]; rfl
    have hlast' : snapshot r.st = ⟨s.interrupts, s.cr3,
        if s.current_thread = thread then (r.st.thread_table thread).pagetable
        else s.cr3⟩ := by
      rw [hlast, hpt, hap, ← hrec]
    have hnew : new_snapshots s r.st =
        ([snapshot s, snapshot s] ++ pre) ++ [snapshot r.st] := by
      apply new_snapshots_of_append
      rw [hpre, hap]; simp
    have hpre_ok : ∀ x ∈ [snapshot s, snapshot s] ++ pre, consistent x := by
      intro x hx
      rcases List.mem_append.mp hx with hx | hx
      · have : x = snapshot s := by simpa using hx
        rw [this]; exact hsnap0
      · rcases hxpre x hx with hx | hx
        · rw [hx, hsnap1]; exact hsnap0
        · intro hi; rw [hx] at hi; exact absurd hi (by decide)
    refine ⟨?_, ?_, ?_⟩
    · intro hcase x hx
      rw [hnew] at hx
      rcases List.mem_append.mp hx with hx | hx
      · exact hpre_ok x hx
      · have hxe : x = snapshot r.st := by simpa using hx
        rcases hcase with hne | hne
        · rw [hxe, hlast', if_neg (fun hc => hne hc.symm)]
          intro _; rfl
        · exact absurd hret0 hne
    · intro _
      exact ⟨_, hnew, hpre_ok, hlast'⟩
    · intro ht uc c0 c s' hps
      subst ht
      unfold process_start at hps
      simp only [thread_get_current_thread, h] at hps
      rw [if_neg (by simp [hret0])] at hps
      simp only [thread_goto_userland, memoryset_context,
        start_result.userland.injEq] at hps
      have hs' := hps.2
      obtain ⟨hcr, hintr, hcur⟩ := build_cr3 cfg _ _ elf _ _ r frS frN frM s3 s4 s5 B
      have e3 : (after_parse executable s).current_thread = s.current_thread := by rw [hap]
      have e1 : (after_parse executable s).next_table = s.next_table := by rw [hap]
      have e2 : (after_parse executable s).interrupts = s.interrupts := by rw [hap]
      have hrecd : (r.st.thread_table r.st.current_thread).context.virt_memory =
          s.next_table := by
        rw [hcur, e3, htt]; simp [e1]
      have hpml4 : (r.st.thread_table s.current_thread).context.pml4 = s.next_table := by
        rw [htt]; simp [e1]
      rw [← hs', hpt]
      simp only [new_snapshots, emit, tick, vmm_setcr3, List.append_assoc,
        List.drop_left, snapshot, hrecd, hpml4, hcr, hintr, e2, ← hrec,
        List.singleton_append]
      rfl

theorem setup_new_process_root_consistency_witness :
    s0.cr3 = (s0.thread_table s0.current_thread).context.virt_memory ∧
    ∃ r, setup_new_process cfg0 1 "prog" [] 0 0 s0 = some r ∧
      ∀ x ∈ new_snapshots s0 r.st, consistent x := by
  refine ⟨rfl, ?_⟩
  have hsome : (setup_new_process cfg0 1 "prog" [] 0 0 s0).isSome = true := by rfl
  obtain ⟨r, h⟩ := Option.isSome_iff_exists.mp hsome
  exact ⟨r, h, (setup_new_process_root_consistency cfg0 1 "prog" [] 0 0 s0 r rfl h).1
    (Or.inl (by decide))⟩

/-! ## The final mappings of the segment pages -/

theorem loop_events_split (ev : Nat → Nat → List Event) (fr : Nat → Nat) :
    ∀ n i, i < n → ∃ pre post, loop_events ev fr n = pre ++ ev i (fr i) ++ post := by
  intro n
  induction n with
  | zero => intro i hi; omega
  | succ n ih =>
    intro i hi
    by_cases hin : i = n
    · subst hin
      exact ⟨loop_events ev fr i, [], by simp [loop_events]⟩
    · obtain ⟨pre, post, h⟩ := ih i (by omega)
      exact ⟨pre, post ++ ev n (fr n), by simp [loop_events, h]⟩

theorem build_tables (cfg : Config) (thread pml4 : Nat) (elf : elf_info_t) (file : Int)
    (s : KState) (r : setup_result) (frS frN frM : Nat → Nat) (s3 s4 s5 : KState)
    (B : BuildFacts cfg thread pml4 elf file s r frS frN frM s3 s4 s5) :
    r.st.tables = s5.tables ∧ r.st.mem = s5.mem ∧
    (build_start thread s).cr3 = s.next_table ∧ s3.cr3 = s.next_table ∧
    s4.cr3 = s.next_table ∧
    (∀ p, (build_start thread s).tables s.next_table p = none) := by
  have h2 : (build_start thread s).cr3 = s.next_table := by rw [build_start_eq]
  have h3 : s3.cr3 = s.next_table := by rw [B.stack.cr3_eq, h2]
  have h4 : s4.cr3 = s.next_table := by rw [B.ro.cr3_eq, h3]
  refine ⟨?_, ?_, h2, h3, h4, ?_⟩
  · rw [B.result, build_finish_eq]
  · rw [B.result, build_finish_eq]
  · intro p; rw [build_start_eq]; simp

/-- The final entries of the segment pages, by the bounds of the two segment
loops. -/
theorem build_page_flags (cfg : Config) (thread : Nat) (executable : String)
    (argv_src : List String) (entry_point stack_top : Nat) (s : KState) (r : setup_result)
    (data : file_data) (elf : elf_info_t)
    (hfile : s.vfs_files executable = some data) (hparse : s.elf_format data = some elf)
    (h : setup_new_process cfg thread executable argv_src entry_point stack_top s = some r)
    (hret : r.ret = 0)
    (hdisj : (stack_pages cfg ++ seg_pages cfg elf.ro_vaddr (toInt32 elf.ro_pages).toNat ++
      seg_pages cfg elf.rw_vaddr (toInt32 elf.rw_pages).toNat).Nodup) :
    (∀ i : Nat, (i : Int) < toInt32 elf.ro_pages → ∃ g pre post,
      r.st.tables (r.st.thread_table thread).pagetable
          (seg_vaddr cfg elf.ro_vaddr i / cfg.PAGE_SIZE) = some ⟨g, cfg.PAGE_USER⟩ ∧
      new_events s r.st = pre ++ [Event.physmem_allocblock g,
        Event.vm_map (r.st.thread_table thread).pagetable g (seg_vaddr cfg elf.ro_vaddr i)
          (cfg.PAGE_USER ||| cfg.PAGE_WRITE)] ++ post) ∧
    (∀ i : Nat, (i : Int) < toInt32 elf.rw_pages → ∃ g pre post,
      r.st.tables (r.st.thread_table thread).pagetable
          (seg_vaddr cfg elf.rw_vaddr i / cfg.PAGE_SIZE) =
        some ⟨g, cfg.PAGE_USER ||| cfg.PAGE_WRITE⟩ ∧
      new_events s r.st = pre ++ [Event.physmem_allocblock g,
        Event.vm_map (r.st.thread_table thread).pagetable g (seg_vaddr cfg elf.rw_vaddr i)
          (cfg.PAGE_USER ||| cfg.PAGE_WRITE)] ++ post) := by
  obtain ⟨hpt, frS, frN, frM, s3, s4, s5, B, hev⟩ := setup_trace cfg thread executable
    argv_src entry_point stack_top s r data elf hfile hparse h hret
  have hap := after_parse_eq executable s data elf hfile hparse
  have e1 : (after_parse executable s).next_table = s.next_table := by rw [hap]
  have htab := (build_tables cfg _ _ elf _ _ r frS frN frM s3 s4 s5 B).1
  have hro := B.ro
  have hrw := B.rw
  rw [e1] at hro hrw
  obtain ⟨hsn, hM, hd2⟩ := List.nodup_append.mp hdisj
  obtain ⟨_, hN, _⟩ := List.nodup_append.mp hsn
  have hNinj := List.inj_on_of_nodup_map hN
  have hMinj := List.inj_on_of_nodup_map hM
  rw [hpt, htab, hrw.tables_eq, hro.tables_eq, hev]
  constructor
  · intro i hi
    have hi' : i < (toInt32 elf.ro_pages).toNat := by omega
    refine ⟨frN i, ?_⟩
    obtain ⟨pre, post, hsplit⟩ := loop_events_split
      (seg_events cfg s.next_table s.vfs_next elf.ro_size elf.ro_location elf.ro_vaddr true)
      frN _ i hi'
    refine ⟨[Event.vfs_open executable s.vfs_next, Event.elf_parse_header s.vfs_next 0] ++
      [Event.vm_create_pagetable thread s.next_table, Event.interrupt_disable,
        Event.process_set_pagetable s.next_table] ++
      loop_events (stack_events cfg s.next_table) frS
        cfg.CONFIG_USERLAND_STACK_SIZE.toNat ++ pre,
      [Event.memoryset (seg_vaddr cfg elf.ro_vaddr i) 0 cfg.PAGE_SIZE] ++
        seg_io cfg s.vfs_next elf.ro_size elf.ro_location elf.ro_vaddr i ++
        [Event.vm_map s.next_table (frN i) (seg_vaddr cfg elf.ro_vaddr i) cfg.PAGE_USER] ++
        post ++
        loop_events (seg_events cfg s.next_table s.vfs_next elf.rw_size elf.rw_location
          elf.rw_vaddr false) frM (toInt32 elf.rw_pages).toNat ++
        [Event.vfs_close s.vfs_next,
          Event.process_set_pagetable (s.thread_table s.current_thread).context.virt_memory,
          Event.interrupt_set_state s.interrupts], ?_, ?_⟩
    · rw [loop_tables_other]
      · exact loop_tables_at cfg _ _ _ _ _ _
          (fun a b ha hb hab => hNinj (List.mem_range.mpr ha) (List.mem_range.mpr hb) hab)
          i hi'
      · intro _ j hj heq
        apply hd2 (a := seg_vaddr cfg elf.ro_vaddr i / cfg.PAGE_SIZE)
        · apply List.mem_append_right
          exact List.mem_map.mpr ⟨i, List.mem_range.mpr hi', rfl⟩
        · exact List.mem_map.mpr ⟨j, List.mem_range.mpr hj, heq.symm⟩
    · simp [build_trace, hsplit, seg_events]
  · intro i hi
    have hi' : i < (toInt32 elf.rw_pages).toNat := by omega
    refine ⟨frM i, ?_⟩
    obtain ⟨pre, post, hsplit⟩ := loop_events_split
      (seg_events cfg s.next_table s.vfs_next elf.rw_size elf.rw_location elf.rw_vaddr false)
      frM _ i hi'
    refine ⟨[Event.vfs_open executable s.vfs_next, Event.elf_parse_header s.vfs_next 0] ++
      [Event.vm_create_pagetable thread s.next_table, Event.interrupt_disable,
        Event.process_set_pagetable s.next_table] ++
      loop_events (stack_events cfg s.next_table) frS
        cfg.CONFIG_USERLAND_STACK_SIZE.toNat ++
      loop_events (seg_events cfg s.next_table s.vfs_next elf.ro_size elf.ro_location
        elf.ro_vaddr true) frN (toInt32 elf.ro_pages).toNat ++ pre,
      [Event.memoryset (seg_vaddr cfg elf.rw_vaddr i) 0 cfg.PAGE_SIZE] ++
        seg_io cfg s.vfs_next elf.rw_size elf.rw_location elf.rw_vaddr i ++
        post ++
        [Event.vfs_close s.vfs_next,
          Event.process_set_pagetable (s.thread_table s.current_thread).context.virt_memory,
          Event.interrupt_set_state s.interrupts], ?_, ?_⟩
    · exact loop_tables_at cfg _ _ _ _ _ _
        (fun a b ha hb hab => hMinj (List.mem_range.mpr ha) (List.mem_range.mpr hb) hab)
        i hi'
    · simp [build_trace, hsplit, seg_events]

/-- C6 (the claim as stated fails): an executable whose read-only page count
field holds 4294967295, with its read-only segment at 0x10000000, above the
read-write segment and the stack, so that the pages of the three regions are
pairwise distinct.  The loop bound (int)elf.ro_pages is -1, the read-only loop
does not run, the build returns 0, and page 0 of the read-only segment has no
entry in the new page table. -/
theorem setup_new_process_page_flags_truncated :
    (stack_pages cfg0 ++ seg_pages cfg0 elf_big.ro_vaddr elf_big.ro_pages ++
      seg_pages cfg0 elf_big.rw_vaddr elf_big.rw_pages).Nodup ∧
    0 < elf_big.ro_pages ∧
    (setup_new_process cfg0 0 "prog" [] 0 0 s0_big).map
        (fun r => (r.ret, alloc_calls (new_events s0_big r.st),
          r.st.tables (r.st.thread_table 0).pagetable
            (seg_vaddr cfg0 elf_big.ro_vaddr 0 / cfg0.PAGE_SIZE))) =
      some (0, 5, none) := by
  have hv : ∀ i, i < 4294967295 →
      seg_vaddr cfg0 elf_big.ro_vaddr i / cfg0.PAGE_SIZE = 65536 + i := by
    intro i hi
    have h1 : elf_big.ro_vaddr + i * cfg0.PAGE_SIZE = 268435456 + i * 4096 := rfl
    have h2 : cfg0.PAGE_SIZE = 4096 := rfl
    rw [seg_vaddr_eq cfg0 _ i (by rw [h1]; omega), h1, h2]
    omega
  have hro : seg_pages cfg0 elf_big.ro_vaddr elf_big.ro_pages =
      (List.range 4294967295).map (fun i => 65536 + i) := by
    unfold seg_pages
    apply List.map_congr_left
    intro i hi
    exact hv i (List.mem_range.mp hi)
  have hst : stack_pages cfg0 = [32768, 32767, 32766, 32765] := by rfl
  have hrw : seg_pages cfg0 elf_big.rw_vaddr elf_big.rw_pages = [1026] := by rfl
  refine ⟨?_, by decide, by rfl⟩
  rw [hro, hst, hrw]
  refine List.nodup_append.mpr ⟨List.nodup_append.mpr ⟨by decide, ?_, ?_⟩, by decide, ?_⟩
  · exact (List.nodup_range _).map (fun a b hab => by omega)
  · intro x hx1 hx2
    obtain ⟨i, _, hi⟩ := List.mem_map.mp hx2
    simp only [List.mem_cons, List.mem_nil_iff, or_false] at hx1
    omega
  · intro x hx1 hx2
    simp only [List.mem_singleton] at hx2
    rcases List.mem_append.mp hx1 with hx1 | hx1
    · simp only [List.mem_cons, List.mem_nil_iff, or_false] at hx1
      omega
    · obtain ⟨i, _, hi⟩ := List.mem_map.mp hx1
      omega

/-- C6, amended: in a successful build whose page count fields elf.ro_pages and
elf.rw_pages are at most INT_MAX (so that the loop bounds (int)elf.ro_pages and
(int)elf.rw_pages are the fields themselves) and in which the pages of the
stack, of the read-only segment and of the read-write segment are pairwise
distinct, the final entry of every page i < elf.ro_pages of the read-only
segment has flags exactly PAGE_USER, the write flag not or-ed in, and its frame
is the one physmem_allocblock returned for that page (the call is directly
followed by the vm_map of that frame at that page); the final entry of every
page i < elf.rw_pages of the read-write segment has flags
PAGE_USER | PAGE_WRITE, again with the frame allocated for it. -/
theorem setup_new_process_page_flags (cfg : Config) (thread : Nat) (executable : String)
    (argv_src : List String) (entry_point stack_top : Nat) (s : KState) (r : setup_result)
    (data : file_data) (elf : elf_info_t)
    (hfile : s.vfs_files executable = some data) (hparse : s.elf_format data = some elf)
    (h : setup_new_process cfg thread executable argv_src entry_point stack_top s = some r)
    (hret : r.ret = 0)
    (hN : elf.ro_pages < 2147483648) (hM : elf.rw_pages < 2147483648)
    (hdisj : (stack_pages cfg ++ seg_pages cfg elf.ro_vaddr elf.ro_pages ++
      seg_pages cfg elf.rw_vaddr elf.rw_pages).Nodup) :
    (∀ i : Nat, i < elf.ro_pages → ∃ g pre post,
      r.st.tables (r.st.thread_table thread).pagetable
          (seg_vaddr cfg elf.ro_vaddr i / cfg.PAGE_SIZE) = some ⟨g, cfg.PAGE_USER⟩ ∧
      new_events s r.st = pre ++ [Event.physmem_allocblock g,
        Event.vm_map (r.st.thread_table thread).pagetable g (seg_vaddr cfg elf.ro_vaddr i)
          (cfg.PAGE_USER ||| cfg.PAGE_WRITE)] ++ post) ∧
    (∀ i : Nat, i < elf.rw_pages → ∃ g pre post,
      r.st.tables (r.st.thread_table thread).pagetable
          (seg_vaddr cfg elf.rw_vaddr i / cfg.PAGE_SIZE) =
        some ⟨g, cfg.PAGE_USER ||| cfg.PAGE_WRITE⟩ ∧
      new_events s r.st = pre ++ [Event.physmem_allocblock g,
        Event.vm_map (r.st.thread_table thread).pagetable g (seg_vaddr cfg elf.rw_vaddr i)
          (cfg.PAGE_USER ||| cfg.PAGE_WRITE)] ++ post) := by
  have eN : toInt32 (elf.ro_pages : Int) = (elf.ro_pages : Int) :=
    toInt32_of_range _ (Int.le_trans (by decide) (Int.natCast_nonneg _))
      (by exact_mod_cast hN)
  have eM : toInt32 (elf.rw_pages : Int) = (elf.rw_pages : Int) :=
    toInt32_of_range _ (Int.le_trans (by decide) (Int.natCast_nonneg _))
      (by exact_mod_cast hM)
  have main := build_page_flags cfg thread executable argv_src entry_point stack_top s r
    data elf hfile hparse h hret
    (by rw [toInt32_toNat_natCast _ hN, toInt32_toNat_natCast _ hM]; exact hdisj)
  exact ⟨fun i hi => main.1 i (by rw [eN]; exact_mod_cast hi),
    fun i hi => main.2 i (by rw [eM]; exact_mod_cast hi)⟩

theorem setup_new_process_page_flags_witness :
    elf0.ro_pages < 2147483648 ∧ elf0.rw_pages < 2147483648 ∧
    (stack_pages cfg0 ++ seg_pages cfg0 elf0.ro_vaddr elf0.ro_pages ++
      seg_pages cfg0 elf0.rw_vaddr elf0.rw_pages).Nodup ∧
    ∃ r, setup_new_process cfg0 0 "prog" [] 0 0 s0 = some r ∧ r.ret = 0 ∧
      ∃ g pre post,
        r.st.tables (r.st.thread_table 0).pagetable
            (seg_vaddr cfg0 elf0.ro_vaddr 1 / cfg0.PAGE_SIZE) = some ⟨g, cfg0.PAGE_USER⟩ ∧
        new_events s0 r.st = pre ++ [Event.physmem_allocblock g,
          Event.vm_map (r.st.thread_table 0).pagetable g (seg_vaddr cfg0 elf0.ro_vaddr 1)
            (cfg0.PAGE_USER ||| cfg0.PAGE_WRITE)] ++ post :=
  ⟨by decide, by decide, by decide,
    match scenario_succeeds with
    | ⟨r, h, hret⟩ =>
      ⟨r, h, hret,
        (setup_new_process_page_flags cfg0 0 "prog" [] 0 0 s0 r file0 elf0 rfl rfl h hret
          (by decide) (by decide) (by decide)).1 1 (by decide)⟩⟩

/-! ## The stack pages -/

theorem for_loop_prefix (body : Nat → KState → Option KState) :
    ∀ n s s', for_loop body n 0 s = some s' →
      ∀ k, k ≤ n → ∃ t, for_loop body k 0 s = some t := by
  intro n
  induction n with
  | zero =>
    intro s s' h k hk
    have : k = 0 := by omega
    subst this
    exact ⟨s', h⟩
  | succ n ih =>
    intro s s' h k hk
    rw [for_loop_succ] at h
    cases hn : for_loop body n 0 s with
    | none => simp [hn] at h
    | some t =>
      by_cases hkn : k = n + 1
      · subst hkn
        rw [for_loop_succ, hn]
        simp only [hn] at h
        exact ⟨s', h⟩
      · exact ih s t hn k (by omega)

/-- The frames of the three loops of a build are pairwise different. -/
theorem build_frames_ne (cfg : Config) (thread pml4 : Nat) (elf : elf_info_t) (file : Int)
    (s : KState) (r : setup_result) (frS frN frM : Nat → Nat) (s3 s4 s5 : KState)
    (B : BuildFacts cfg thread pml4 elf file s r frS frN frM s3 s4 s5) :
    (∀ j i, j < cfg.CONFIG_USERLAND_STACK_SIZE.toNat → i < (toInt32 elf.ro_pages).toNat →
      frS j ≠ frN i) ∧
    (∀ j i, j < cfg.CONFIG_USERLAND_STACK_SIZE.toNat → i < (toInt32 elf.rw_pages).toNat →
      frS j ≠ frM i) ∧
    (∀ j i, j < (toInt32 elf.ro_pages).toNat → i < (toInt32 elf.rw_pages).toNat →
      frN j ≠ frM i) := by
  refine ⟨?_, ?_, ?_⟩
  · intro j i hj hi heq
    have h1 := B.ro.fr_free i hi
    exact ((B.stack.free_iff _).mp h1).2 j hj heq.symm
  · intro j i hj hi heq
    have h1 := B.rw.fr_free i hi
    have h2 := ((B.ro.free_iff _).mp h1).1
    exact ((B.stack.free_iff _).mp h2).2 j hj heq.symm
  · intro j i hj hi heq
    have h1 := B.rw.fr_free i hi
    exact ((B.ro.free_iff _).mp h1).2 j hj heq.symm

/-- With a free frame left, and frame 0 not free, the allocator hands out a
non-zero frame and one free frame less is left. -/
theorem physmem_allocblock_succeeds (cfg : Config) (s : KState)
    (h0 : s.physmem_free 0 = false) (hpos : 0 < (free_frames s).length) :
    (physmem_allocblock cfg s).1 ≠ 0 ∧
    (physmem_allocblock cfg s).2.physmem_free 0 = false ∧
    (free_frames (physmem_allocblock cfg s).2).length = (free_frames s).length - 1 ∧
    (physmem_allocblock cfg s).2.cr3 = s.cr3 := by
  obtain ⟨x, hx⟩ := List.exists_mem_of_length_pos hpos
  have hx' : x ∈ List.range s.physmem_size ∧ s.physmem_free x = true := by
    simpa [free_frames] using hx
  have hsome : ((List.range s.physmem_size).find? (fun n => s.physmem_free n)).isSome :=
    List.find?_isSome.mpr ⟨x, hx'.1, hx'.2⟩
  obtain ⟨n, hn⟩ := Option.isSome_iff_exists.mp hsome
  have hnfree : s.physmem_free n = true := by simpa using List.find?_some hn
  have hnmem : n ∈ free_frames s := by
    simp only [free_frames, List.mem_filter]
    exact ⟨List.mem_of_find?_eq_some hn, hnfree⟩
  have hn0 : n ≠ 0 := by
    intro h; rw [h, h0] at hnfree; exact absurd hnfree (by decide)
  unfold physmem_allocblock
  simp only [hn]
  refine ⟨Nat.mul_ne_zero hn0 (Nat.pos_iff_ne_zero.mp cfg.PAGE_SIZE_pos), ?_, ?_, rfl⟩
  · simp [emit, tick, h0]
  · have hnd : (free_frames s).Nodup := (List.nodup_range _).filter _
    have herase : (free_frames s).erase n =
        (free_frames s).filter (fun m => m != n) := hnd.erase_eq_filter n
    have hlen := List.length_erase_of_mem hnmem
    rw [herase] at hlen
    rw [← hlen]
    simp only [free_frames, emit, tick, List.filter_filter]
    congr 1
    apply List.filter_congr
    intro m _
    by_cases hmn : m = n <;> simp [hmn]

theorem stack_page_succeeds (cfg : Config) (pt i : Nat) (t : KState)
    (hcr : t.cr3 = pt) (hal : stack_vaddr cfg i % cfg.PAGE_SIZE = 0)
    (h0 : t.physmem_free 0 = false) (hpos : 0 < (free_frames t).length) :
    ∃ t', stack_page cfg pt i t = some t' ∧ t'.cr3 = pt ∧ t'.physmem_free 0 = false ∧
      (free_frames t').length = (free_frames t).length - 1 := by
  obtain ⟨hne, hf0, hlen, hcr1⟩ := physmem_allocblock_succeeds cfg t h0 hpos
  unfold stack_page
  simp only [hne, if_false]
  unfold memoryset store_bytes
  rw [page_span_aligned cfg _ _ hal cfg.PAGE_SIZE_pos (le_refl _)]
  have hm : ((vm_map cfg pt (physmem_allocblock cfg t).1 (stack_vaddr cfg i)
      (cfg.PAGE_USER ||| cfg.PAGE_WRITE) (physmem_allocblock cfg t).2).tables
      (vm_map cfg pt (physmem_allocblock cfg t).1 (stack_vaddr cfg i)
        (cfg.PAGE_USER ||| cfg.PAGE_WRITE) (physmem_allocblock cfg t).2).cr3
      (stack_vaddr cfg i / cfg.PAGE_SIZE)).isSome = true := by
    simp [vm_map, emit, tick, hcr1, hcr]
  simp only [List.all_cons, hm, List.all_nil, Bool.and_self, if_true, Option.map_some']
  refine ⟨_, rfl, ?_, ?_, ?_⟩
  · simp [vm_map, emit, tick, hcr1, hcr]
  · simpa [vm_map, emit, tick] using hf0
  · rw [← hlen]
    simp [free_frames, vm_map, emit, tick]

/-- With enough free frames the stack loop runs to its end. -/
theorem stack_loop_runs (cfg : Config) (pt : Nat) :
    ∀ n i t, t.cr3 = pt → t.physmem_free 0 = false → n ≤ (free_frames t).length →
      (∀ j, i ≤ j → j < i + n → stack_vaddr cfg j % cfg.PAGE_SIZE = 0) →
      ∃ t', for_loop (stack_page cfg pt) n i t = some t' := by
  intro n
  induction n with
  | zero => intro i t _ _ _ _; exact ⟨t, rfl⟩
  | succ n ih =>
    intro i t hcr h0 hlen hal
    obtain ⟨t1, h1, hcr1, hf1, hl1⟩ := stack_page_succeeds cfg pt i t hcr
      (hal i (le_refl _) (by omega)) h0 (by omega)
    obtain ⟨t', ht'⟩ := ih (i + 1) t1 hcr1 hf1 (by omega)
      (fun j hj1 hj2 => hal j (by omega) (by omega))
    exact ⟨t', by rw [for_loop, h1]; exact ht'⟩

theorem io_calls_append (a b : List Event) :
    io_calls (a ++ b) = io_calls a ++ io_calls b := by
  simp [io_calls, List.filter_append]

theorem io_calls_stack_loop (cfg : Config) (pt : Nat) (fr : Nat → Nat) :
    ∀ n, io_calls (loop_events (stack_events cfg pt) fr n) = [] := by
  intro n
  induction n with
  | zero => rfl
  | succ n ih =>
    rw [loop_events, io_calls_append, ih]
    simp [io_calls, stack_events]

theorem io_calls_seg_io (cfg : Config) (file : Int) (size location vaddr i : Nat) :
    io_calls (seg_io cfg file size location vaddr i) =
      seg_io cfg file size location vaddr i := by
  unfold seg_io
  split <;> simp [io_calls]

theorem io_calls_seg_loop (cfg : Config) (pt : Nat) (file : Int)
    (size location vaddr : Nat) (remap : Bool) (fr : Nat → Nat) :
    ∀ n, io_calls (loop_events (seg_events cfg pt file size location vaddr remap) fr n) =
      loop_io cfg file size location vaddr n := by
  intro n
  induction n with
  | zero => rfl
  | succ n ih =>
    rw [loop_events, io_calls_append, ih, loop_io]
    congr 1
    unfold seg_events
    rw [io_calls_append, io_calls_append, io_calls_seg_io]
    cases remap <;> simp [io_calls]

theorem seg_left_eq (cfg : Config) (size i : Nat) (hs : size < 2147483648)
    (hi : i * cfg.PAGE_SIZE < 2147483648) :
    seg_left cfg size i = (size : Int) - ((i * cfg.PAGE_SIZE : Nat) : Int) := by
  unfold seg_left
  rw [toInt32_of_range]
  · push_cast; rfl
  · have h1 : (0 : Int) ≤ (size : Int) := Int.natCast_nonneg _
    have h2 : ((i : Int) * (cfg.PAGE_SIZE : Int)) < 2147483648 := by exact_mod_cast hi
    linarith
  · have h1 : (size : Int) < 2147483648 := by exact_mod_cast hs
    have h2 : (0 : Int) ≤ (i : Int) * (cfg.PAGE_SIZE : Int) :=
      Int.mul_nonneg (Int.natCast_nonneg _) (Int.natCast_nonneg _)
    linarith

theorem toInt32_nonneg_eq (x : Int) (h0 : 0 ≤ x) (h1 : x < 4294967296)
    (h : 0 ≤ toInt32 x) : toInt32 x = x := by
  unfold toInt32 at *
  omega

theorem seg_seek_eq (cfg : Config) (location i : Nat) (hl : location < 2147483648)
    (hi : i * cfg.PAGE_SIZE < 2147483648) (h0 : 0 ≤ seg_seek cfg location i) :
    seg_seek cfg location i = ((location + i * cfg.PAGE_SIZE : Nat) : Int) := by
  have h1 : (location : Int) < 2147483648 := by exact_mod_cast hl
  have h2 : ((i : Int) * (cfg.PAGE_SIZE : Int)) < 2147483648 := by exact_mod_cast hi
  have h3 : (0 : Int) ≤ (location : Int) := Int.natCast_nonneg _
  have h4 : (0 : Int) ≤ (i : Int) * (cfg.PAGE_SIZE : Int) :=
      Int.mul_nonneg (Int.natCast_nonneg _) (Int.natCast_nonneg _)
  have h6 : (0 : Int) ≤ (location : Int) + (i : Int) * (cfg.PAGE_SIZE : Int) := by linarith
  have h7 : (location : Int) + (i : Int) * (cfg.PAGE_SIZE : Int) < 4294967296 := by linarith
  unfold seg_seek at h0 ⊢
  rw [toInt32_nonneg_eq _ h6 h7 h0]
  push_cast
  rfl

theorem seg_io_eq (cfg : Config) (file : Int) (size location vaddr i : Nat)
    (hs : size < 2147483648) (hl : location < 2147483648)
    (hi : i * cfg.PAGE_SIZE < 2147483648)
    (hv : vaddr + i * cfg.PAGE_SIZE < 18446744073709551616)
    (h0 : seg_left cfg size i > 0 → 0 ≤ seg_seek cfg location i) :
    seg_io cfg file size location vaddr i =
      if i * cfg.PAGE_SIZE < size then
        [Event.vfs_seek file ((location + i * cfg.PAGE_SIZE : Nat) : Int),
         Event.vfs_read file (vaddr + i * cfg.PAGE_SIZE)
           ((min cfg.PAGE_SIZE (size - i * cfg.PAGE_SIZE) : Nat) : Int)]
      else [] := by
  have hleft := seg_left_eq cfg size i hs hi
  unfold seg_io
  by_cases hlt : i * cfg.PAGE_SIZE < size
  · have hpos : seg_left cfg size i > 0 := by rw [hleft]; omega
    rw [if_pos hpos, if_pos hlt, seg_seek_eq cfg location i hl hi (h0 hpos),
      seg_vaddr_eq cfg vaddr i hv, (seg_len_eq cfg size i hpos).1, hleft]
    have : MIN (cfg.PAGE_SIZE : Int) ((size : Int) - ((i * cfg.PAGE_SIZE : Nat) : Int)) =
        ((min cfg.PAGE_SIZE (size - i * cfg.PAGE_SIZE) : Nat) : Int) := by
      unfold MIN
      split <;> omega
    rw [this]
  · have hneg : ¬ seg_left cfg size i > 0 := by rw [hleft]; omega
    rw [if_neg hneg, if_neg hlt]

theorem loop_io_eq (cfg : Config) (file : Int) (size location vaddr : Nat)
    (hs : size < 2147483648) (hl : location < 2147483648) :
    ∀ n, n * cfg.PAGE_SIZE < 2147483648 →
      vaddr + n * cfg.PAGE_SIZE < 18446744073709551616 →
      (∀ i, i < n → seg_left cfg size i > 0 → 0 ≤ seg_seek cfg location i) →
      loop_io cfg file size location vaddr n = seg_reads cfg file vaddr size location n := by
  intro n
  induction n with
  | zero => intro _ _ _; rfl
  | succ n ih =>
    intro hn hv h0
    have hle : n * cfg.PAGE_SIZE ≤ (n + 1) * cfg.PAGE_SIZE :=
      Nat.mul_le_mul_right _ (Nat.le_succ n)
    rw [loop_io, seg_reads, ih (by omega) (by omega) (fun i hi => h0 i (by omega)),
      seg_io_eq cfg file size location vaddr n hs hl (by omega) (by omega)
        (h0 n (by omega))]

theorem next_page (cfg : Config) (a : Nat) (hm : a % cfg.PAGE_SIZE ≠ 0) :
    ∃ k, k < cfg.PAGE_SIZE ∧ (a + k) / cfg.PAGE_SIZE ≠ a / cfg.PAGE_SIZE := by
  have h1 := Nat.div_add_mod a cfg.PAGE_SIZE
  have h2 := Nat.mod_lt a cfg.PAGE_SIZE_pos
  refine ⟨cfg.PAGE_SIZE - a % cfg.PAGE_SIZE, by omega, ?_⟩
  have h3 : a + (cfg.PAGE_SIZE - a % cfg.PAGE_SIZE) =
      cfg.PAGE_SIZE * (a / cfg.PAGE_SIZE + 1) := by
    rw [Nat.mul_add, Nat.mul_one]; omega
  rw [h3, Nat.mul_div_cancel_left _ cfg.PAGE_SIZE_pos]
  omega

theorem aligned_of_mapped (cfg : Config) (a : Nat) (tbl : Nat → Option pte_t)
    (hmapped : ∀ k, k < cfg.PAGE_SIZE → (a + k) / cfg.PAGE_SIZE ≠ a / cfg.PAGE_SIZE →
      (tbl ((a + k) / cfg.PAGE_SIZE)).isSome = true)
    (hnone : ∀ k, k < cfg.PAGE_SIZE → tbl ((a + k) / cfg.PAGE_SIZE) = none) :
    a % cfg.PAGE_SIZE = 0 := by
  by_contra hm
  obtain ⟨k, hk, hne⟩ := next_page cfg a hm
  have h1 := hmapped k hk hne
  rw [hnone k hk] at h1
  exact absurd h1 (by decide)

theorem seg_page_index (cfg : Config) (a k : Nat) (ha : a % cfg.PAGE_SIZE = 0) :
    (a + k) / cfg.PAGE_SIZE = a / cfg.PAGE_SIZE + k / cfg.PAGE_SIZE ∧
    (a + k) % cfg.PAGE_SIZE = k % cfg.PAGE_SIZE := by
  obtain ⟨q, rfl⟩ := Nat.dvd_of_mod_eq_zero ha
  constructor
  · rw [Nat.mul_add_div cfg.PAGE_SIZE_pos, Nat.mul_div_cancel_left _ cfg.PAGE_SIZE_pos]
  · rw [Nat.mul_add_mod]

theorem seg_fill_eq (cfg : Config) (d : file_data) (size location i o : Nat)
    (hs : size < 2147483648) (hl : location < 2147483648)
    (hi : i * cfg.PAGE_SIZE < 2147483648) (ho : o < cfg.PAGE_SIZE)
    (h0 : seg_left cfg size i > 0 → 0 ≤ seg_seek cfg location i) :
    seg_fill cfg d size location i o =
      if i * cfg.PAGE_SIZE + o < size then d.byte (location + (i * cfg.PAGE_SIZE + o))
      else 0 := by
  have hleft := seg_left_eq cfg size i hs hi
  unfold seg_fill
  by_cases hpos : seg_left cfg size i > 0
  · obtain ⟨hlen, _, _⟩ := seg_len_eq cfg size i hpos
    have hmin : seg_len cfg size i =
        ((min cfg.PAGE_SIZE (size - i * cfg.PAGE_SIZE) : Nat) : Int) := by
      rw [hlen, hleft]
      unfold MIN
      split <;> omega
    have hseek := seg_seek_eq cfg location i hl hi (h0 hpos)
    rw [hleft] at hpos
    by_cases hlt : i * cfg.PAGE_SIZE + o < size
    · have h1 : (o : Int) < seg_len cfg size i := by rw [hmin]; omega
      have h2 : seg_left cfg size i > 0 := by rw [hleft]; exact hpos
      rw [if_pos ⟨h2, h1⟩, if_pos hlt, hseek, Int.toNat_natCast, Nat.add_assoc]
    · have h1 : ¬ (o : Int) < seg_len cfg size i := by rw [hmin]; omega
      rw [if_neg (fun hc => h1 hc.2), if_neg hlt]
  · have hlt : ¬ i * cfg.PAGE_SIZE + o < size := by
      rw [hleft] at hpos; omega
    rw [if_neg (fun hc => hpos hc.1), if_neg hlt]

/-- The pages of an aligned segment after its loop: page k / PAGE_SIZE holds
the file bytes of the segment, then zeroes. -/
theorem seg_loop_content (cfg : Config) (pt vaddr size location fl : Nat)
    (ev : Nat → Nat → List Event) (d : file_data) (fr : Nat → Nat) (n : Nat)
    (s s' : KState)
    (L : LoopFacts cfg pt (seg_vaddr cfg vaddr) fl ev (seg_fill cfg d size location) fr n
      s s')
    (hcr : s.cr3 = pt) (hal : vaddr % cfg.PAGE_SIZE = 0)
    (hs : size < 2147483648) (hl : location < 2147483648)
    (hn : n * cfg.PAGE_SIZE < 2147483648) (hv : vaddr < 2147483648)
    (hseek : ∀ i, i < n → seg_left cfg size i > 0 → 0 ≤ seg_seek cfg location i) :
    (∀ i, i < n → seg_vaddr cfg vaddr i = vaddr + i * cfg.PAGE_SIZE ∧
      seg_vaddr cfg vaddr i % cfg.PAGE_SIZE = 0 ∧
      seg_vaddr cfg vaddr i / cfg.PAGE_SIZE = vaddr / cfg.PAGE_SIZE + i) ∧
    ∀ k, k < n * cfg.PAGE_SIZE →
      k / cfg.PAGE_SIZE < n ∧
      (vaddr + k) / cfg.PAGE_SIZE = seg_vaddr cfg vaddr (k / cfg.PAGE_SIZE) / cfg.PAGE_SIZE ∧
      s'.tables pt ((vaddr + k) / cfg.PAGE_SIZE) = some ⟨fr (k / cfg.PAGE_SIZE), fl⟩ ∧
      s'.mem (fr (k / cfg.PAGE_SIZE)) ((vaddr + k) % cfg.PAGE_SIZE) =
        if k < size then d.byte (location + k) else 0 := by
  have hile : ∀ i, i < n → i * cfg.PAGE_SIZE < 2147483648 := by
    intro i hi
    exact Nat.lt_of_le_of_lt (Nat.mul_le_mul_right _ (Nat.le_of_lt hi)) hn
  have hva : ∀ i, i < n → seg_vaddr cfg vaddr i = vaddr + i * cfg.PAGE_SIZE ∧
      seg_vaddr cfg vaddr i % cfg.PAGE_SIZE = 0 ∧
      seg_vaddr cfg vaddr i / cfg.PAGE_SIZE = vaddr / cfg.PAGE_SIZE + i := by
    intro i hi
    have h1 := hile i hi
    have e := seg_vaddr_eq cfg vaddr i (by omega)
    refine ⟨e, ?_, ?_⟩
    · rw [e, Nat.add_mul_mod_self_right]; exact hal
    · rw [e, Nat.add_mul_div_right _ _ cfg.PAGE_SIZE_pos]
  refine ⟨hva, ?_⟩
  intro k hk
  have hi : k / cfg.PAGE_SIZE < n := by
    apply Nat.div_lt_of_lt_mul
    rw [Nat.mul_comm]; exact hk
  have ho : k % cfg.PAGE_SIZE < cfg.PAGE_SIZE := Nat.mod_lt k cfg.PAGE_SIZE_pos
  have hk_eq : k / cfg.PAGE_SIZE * cfg.PAGE_SIZE + k % cfg.PAGE_SIZE = k := by
    rw [Nat.mul_comm]; exact Nat.div_add_mod k cfg.PAGE_SIZE
  obtain ⟨hdiv, hmod⟩ := seg_page_index cfg vaddr k hal
  have hpage : (vaddr + k) / cfg.PAGE_SIZE =
      seg_vaddr cfg vaddr (k / cfg.PAGE_SIZE) / cfg.PAGE_SIZE := by
    rw [hdiv, (hva _ hi).2.2]
  have hinj : ∀ a b, a < n → b < n →
      seg_vaddr cfg vaddr a / cfg.PAGE_SIZE = seg_vaddr cfg vaddr b / cfg.PAGE_SIZE →
      a = b := by
    intro a b ha hb hab
    rw [(hva a ha).2.2, (hva b hb).2.2] at hab
    exact Nat.add_left_cancel hab
  refine ⟨hi, hpage, ?_, ?_⟩
  · rw [hpage, L.tables_eq]
    exact loop_tables_at cfg _ _ _ _ _ _ hinj _ hi
  · rw [hmod, L.mem_eq hcr (fun i hi => (hva i hi).2.1),
      loop_mem_at cfg _ _ _ _ L.fr_inj _ _ hi ho,
      seg_fill_eq cfg d size location _ _ hs hl (hile _ hi) ho (hseek _ hi), hk_eq]

theorem page_of_aligned (cfg : Config) (a x i : Nat) (ha : a % cfg.PAGE_SIZE = 0)
    (h : x / cfg.PAGE_SIZE = a / cfg.PAGE_SIZE + i) :
    ∃ o, o < cfg.PAGE_SIZE ∧ x = a + (i * cfg.PAGE_SIZE + o) := by
  refine ⟨x % cfg.PAGE_SIZE, Nat.mod_lt x cfg.PAGE_SIZE_pos, ?_⟩
  have h1 := Nat.div_add_mod x cfg.PAGE_SIZE
  have h2 : cfg.PAGE_SIZE * (a / cfg.PAGE_SIZE) = a :=
    Nat.mul_div_cancel' (Nat.dvd_of_mod_eq_zero ha)
  rw [h, Nat.mul_add, h2, Nat.mul_comm cfg.PAGE_SIZE i] at h1
  omega

theorem page_offset_lt (cfg : Config) (i o n : Nat) (hi : i < n) (ho : o < cfg.PAGE_SIZE) :
    i * cfg.PAGE_SIZE + o < n * cfg.PAGE_SIZE := by
  have h1 : (i + 1) * cfg.PAGE_SIZE ≤ n * cfg.PAGE_SIZE := Nat.mul_le_mul_right _ hi
  rw [Nat.succ_mul] at h1
  omega

theorem seek_mem_seg_events (cfg : Config) (pt : Nat) (file : Int)
    (size location vaddr : Nat) (remap : Bool) (i g : Nat)
    (hl : seg_left cfg size i > 0) :
    Event.vfs_seek file (seg_seek cfg location i) ∈
      seg_events cfg pt file size location vaddr remap i g := by
  simp [seg_events, seg_io, hl]

theorem seg_vaddr_zero (cfg : Config) (vaddr : Nat) (h : vaddr < 2147483648) :
    seg_vaddr cfg vaddr 0 = vaddr := by
  rw [seg_vaddr_eq cfg vaddr 0 (by omega)]
  omega

/-- C7: in a successful build whose two segments are described by values that
fit in a signed int, with pages * PAGE_SIZE >= size, and whose segments and
stack pages do not overlap, the file operations of the build are, for the
read-only and then the read-write segment and for each page i in order, one
seek to location + i * PAGE_SIZE followed by one read of
min(PAGE_SIZE, size - i * PAGE_SIZE) bytes into the page when
i * PAGE_SIZE < size and nothing otherwise; and at return, in the new page
table, the byte at vaddr + k is the file byte at location + k for k < size and
zero for size <= k < pages * PAGE_SIZE. -/
theorem setup_new_process_segment_contents (cfg : Config) (thread : Nat)
    (executable : String) (argv_src : List String) (entry_point stack_top : Nat)
    (s : KState) (r : setup_result) (data : file_data) (elf : elf_info_t)
    (hfile : s.vfs_files executable = some data) (hparse : s.elf_format data = some elf)
    (h : setup_new_process cfg thread executable argv_src entry_point stack_top s = some r)
    (hret : r.ret = 0)
    (hfitN : seg_fits cfg elf.ro_vaddr elf.ro_size elf.ro_location elf.ro_pages)
    (hfitM : seg_fits cfg elf.rw_vaddr elf.rw_size elf.rw_location elf.rw_pages)
    (hcovN : elf.ro_size ≤ elf.ro_pages * cfg.PAGE_SIZE)
    (hcovM : elf.rw_size ≤ elf.rw_pages * cfg.PAGE_SIZE)
    (hro_stack : ∀ k, k < elf.ro_pages * cfg.PAGE_SIZE →
      ∀ j, j < cfg.CONFIG_USERLAND_STACK_SIZE.toNat →
      (elf.ro_vaddr + k) / cfg.PAGE_SIZE ≠ stack_vaddr cfg j / cfg.PAGE_SIZE)
    (hrw_stack : ∀ k, k < elf.rw_pages * cfg.PAGE_SIZE →
      ∀ j, j < cfg.CONFIG_USERLAND_STACK_SIZE.toNat →
      (elf.rw_vaddr + k) / cfg.PAGE_SIZE ≠ stack_vaddr cfg j / cfg.PAGE_SIZE)
    (hro_rw : ∀ k, k < elf.ro_pages * cfg.PAGE_SIZE →
      ∀ k', k' < elf.rw_pages * cfg.PAGE_SIZE → elf.ro_vaddr + k ≠ elf.rw_vaddr + k') :
    io_calls (new_events s r.st) =
      seg_reads cfg (vfs_open executable s).1 elf.ro_vaddr elf.ro_size elf.ro_location
        elf.ro_pages ++
      seg_reads cfg (vfs_open executable s).1 elf.rw_vaddr elf.rw_size elf.rw_location
        elf.rw_pages ∧
    (∀ k, k < elf.ro_size →
      vm_load cfg r.st (r.st.thread_table thread).pagetable (elf.ro_vaddr + k) =
        some (data.byte (elf.ro_location + k))) ∧
    (∀ k, elf.ro_size ≤ k → k < elf.ro_pages * cfg.PAGE_SIZE →
      vm_load cfg r.st (r.st.thread_table thread).pagetable (elf.ro_vaddr + k) = some 0) ∧
    (∀ k, k < elf.rw_size →
      vm_load cfg r.st (r.st.thread_table thread).pagetable (elf.rw_vaddr + k) =
        some (data.byte (elf.rw_location + k))) ∧
    (∀ k, elf.rw_size ≤ k → k < elf.rw_pages * cfg.PAGE_SIZE →
      vm_load cfg r.st (r.st.thread_table thread).pagetable (elf.rw_vaddr + k) = some 0) := by
  obtain ⟨hpt, frS, frN, frM, s3, s4, s5, B, hev⟩ := setup_trace cfg thread executable
    argv_src entry_point stack_top s r data elf hfile hparse h hret
  have hap := after_parse_eq executable s data elf hfile hparse
  have e1 : (after_parse executable s).next_table = s.next_table := by rw [hap]
  have hopen : (vfs_open executable s).1 = s.vfs_next := by simp [vfs_open, hfile]
  obtain ⟨htab, hmem, hcr2, hcr3, hcr4, hempty⟩ :=
    build_tables cfg _ _ elf _ _ r frS frN frM s3 s4 s5 B
  rw [e1] at hcr2 hcr3 hcr4 hempty
  obtain ⟨_, _, hNM⟩ := build_frames_ne cfg _ _ elf _ _ r frS frN frM s3 s4 s5 B
  obtain ⟨hvN, hsN, hlN, hpN, hnN⟩ := hfitN
  obtain ⟨hvM, hsM, hlM, hpM, hnM⟩ := hfitM
  have hN : (toInt32 (elf.ro_pages : Int)).toNat = elf.ro_pages :=
    toInt32_toNat_natCast _ hpN
  have hM : (toInt32 (elf.rw_pages : Int)).toNat = elf.rw_pages :=
    toInt32_toNat_natCast _ hpM
  rw [hN, hM] at hNM
  have LS := B.stack
  have LN := B.ro
  have LM := B.rw
  rw [e1] at LS LN LM
  rw [hN] at LN
  rw [hM] at LM
  -- the file behind the handle
  have hf2 : file_of (build_start thread (after_parse executable s)) s.vfs_next = data := by
    rw [build_start_eq, hap]; simp [file_of]
  have hf3 : file_of s3 s.vfs_next = data := by
    rw [file_of_congr _ _ _ (LS.files_eq _), hf2]
  have hf4 : file_of s4 s.vfs_next = data := by
    rw [file_of_congr _ _ _ (LN.files_eq _), hf3]
  rw [hf3] at LN
  rw [hf4] at LM
  have hseekN : ∀ i, i < elf.ro_pages → seg_left cfg elf.ro_size i > 0 →
      0 ≤ seg_seek cfg elf.ro_location i := fun i hi hl =>
    LN.seek_ok i hi _ _ (seek_mem_seg_events cfg _ _ _ _ _ _ i _ hl)
  have hseekM : ∀ i, i < elf.rw_pages → seg_left cfg elf.rw_size i > 0 →
      0 ≤ seg_seek cfg elf.rw_location i := fun i hi hl =>
    LM.seek_ok i hi _ _ (seek_mem_seg_events cfg _ _ _ _ _ _ i _ hl)
  -- pages mapped after the stack loop are stack pages
  have hnone3 : ∀ p, (∀ j, j < cfg.CONFIG_USERLAND_STACK_SIZE.toNat →
      p ≠ stack_vaddr cfg j / cfg.PAGE_SIZE) → s3.tables s.next_table p = none := by
    intro p hp
    rw [LS.tables_eq, loop_tables_other cfg _ _ _ _ _ _ _ _ (fun _ j hj => hp j hj)]
    exact hempty p
  -- the read-only segment starts on a page boundary
  have halN : 0 < elf.ro_pages → elf.ro_vaddr % cfg.PAGE_SIZE = 0 := by
    intro hpos
    have hps : cfg.PAGE_SIZE ≤ elf.ro_pages * cfg.PAGE_SIZE :=
      Nat.le_mul_of_pos_left _ hpos
    apply aligned_of_mapped cfg _ (s3.tables s.next_table)
    · intro k hk hne
      have := LN.mapped hcr3 0 hpos k hk
      rw [seg_vaddr_zero cfg _ hvN] at this
      exact this hne
    · intro k hk
      exact hnone3 _ (fun j hj => hro_stack k (Nat.lt_of_lt_of_le hk hps) j hj)
  have CN := fun hpos => seg_loop_content cfg s.next_table elf.ro_vaddr elf.ro_size
    elf.ro_location _ _ data frN elf.ro_pages s3 s4 LN hcr3 (halN hpos) hsN hlN hnN hvN hseekN
  -- pages mapped after the read-only loop
  have hnone4 : ∀ p, (∀ j, j < cfg.CONFIG_USERLAND_STACK_SIZE.toNat →
      p ≠ stack_vaddr cfg j / cfg.PAGE_SIZE) →
      (∀ i, i < elf.ro_pages → p ≠ seg_vaddr cfg elf.ro_vaddr i / cfg.PAGE_SIZE) →
      s4.tables s.next_table p = none := by
    intro p hp1 hp2
    rw [LN.tables_eq, loop_tables_other cfg _ _ _ _ _ _ _ _ (fun _ i hi => hp2 i hi)]
    exact hnone3 p hp1
  -- no byte of the read-write segment lies in a page of the read-only segment
  have hdisj : ∀ k, k < elf.rw_pages * cfg.PAGE_SIZE → ∀ i, i < elf.ro_pages →
      (elf.rw_vaddr + k) / cfg.PAGE_SIZE ≠
        seg_vaddr cfg elf.ro_vaddr i / cfg.PAGE_SIZE := by
    intro k hk i hi heq
    have hpos : 0 < elf.ro_pages := Nat.lt_of_le_of_lt (Nat.zero_le _) hi
    rw [((CN hpos).1 i hi).2.2] at heq
    obtain ⟨o, ho, hx⟩ := page_of_aligned cfg _ _ i (halN hpos) heq
    exact hro_rw _ (page_offset_lt cfg i o _ hi ho) k hk hx.symm
  have halM : 0 < elf.rw_pages → elf.rw_vaddr % cfg.PAGE_SIZE = 0 := by
    intro hpos
    have hps : cfg.PAGE_SIZE ≤ elf.rw_pages * cfg.PAGE_SIZE :=
      Nat.le_mul_of_pos_left _ hpos
    apply aligned_of_mapped cfg _ (s4.tables s.next_table)
    · intro k hk hne
      have := LM.mapped hcr4 0 hpos k hk
      rw [seg_vaddr_zero cfg _ hvM] at this
      exact this hne
    · intro k hk
      have hk' := Nat.lt_of_lt_of_le hk hps
      exact hnone4 _ (fun j hj => hrw_stack k hk' j hj) (fun i hi => hdisj k hk' i hi)
  have CM := fun hpos => seg_loop_content cfg s.next_table elf.rw_vaddr elf.rw_size
    elf.rw_location _ _ data frM elf.rw_pages s4 s5 LM hcr4 (halM hpos) hsM hlM hnM hvM hseekM
  -- contents of the read-only pages at return
  have hroc : ∀ k, k < elf.ro_pages * cfg.PAGE_SIZE →
      vm_load cfg r.st s.next_table (elf.ro_vaddr + k) =
        some (if k < elf.ro_size then data.byte (elf.ro_location + k) else 0) := by
    intro k hk
    have hpos : 0 < elf.ro_pages := by
      rcases Nat.eq_zero_or_pos elf.ro_pages with h0 | h0
      · rw [h0, Nat.zero_mul] at hk; exact absurd hk (Nat.not_lt_zero _)
      · exact h0
    obtain ⟨hi, hpage, ht4, hm4⟩ := (CN hpos).2 k hk
    have ht5 : s5.tables s.next_table ((elf.ro_vaddr + k) / cfg.PAGE_SIZE) =
        s4.tables s.next_table ((elf.ro_vaddr + k) / cfg.PAGE_SIZE) := by
      rw [LM.tables_eq]
      apply loop_tables_other
      intro _ j hj heq
      have hposM : 0 < elf.rw_pages := Nat.lt_of_le_of_lt (Nat.zero_le _) hj
      rw [((CM hposM).1 j hj).2.2] at heq
      obtain ⟨o, ho, hx⟩ := page_of_aligned cfg _ _ j (halM hposM) heq
      exact hro_rw k hk _ (page_offset_lt cfg j o _ hj ho) hx
    have hm5 : s5.mem (frN (k / cfg.PAGE_SIZE)) ((elf.ro_vaddr + k) % cfg.PAGE_SIZE) =
        s4.mem (frN (k / cfg.PAGE_SIZE)) ((elf.ro_vaddr + k) % cfg.PAGE_SIZE) := by
      rw [LM.mem_eq hcr4 (fun j hj =>
        ((CM (Nat.lt_of_le_of_lt (Nat.zero_le _) hj)).1 j hj).2.1)]
      exact loop_mem_other cfg _ _ _ _ _ _ (fun j hj => hNM _ j hi hj)
    unfold vm_load
    rw [htab, hmem, ht5, ht4]
    simp only [Option.map_some']
    rw [hm5, hm4]
  have hrwc : ∀ k, k < elf.rw_pages * cfg.PAGE_SIZE →
      vm_load cfg r.st s.next_table (elf.rw_vaddr + k) =
        some (if k < elf.rw_size then data.byte (elf.rw_location + k) else 0) := by
    intro k hk
    have hpos : 0 < elf.rw_pages := by
      rcases Nat.eq_zero_or_pos elf.rw_pages with h0 | h0
      · rw [h0, Nat.zero_mul] at hk; exact absurd hk (Nat.not_lt_zero _)
      · exact h0
    obtain ⟨hi, hpage, ht5, hm5⟩ := (CM hpos).2 k hk
    unfold vm_load
    rw [htab, hmem, ht5]
    simp only [Option.map_some']
    rw [hm5]
  rw [hpt, hopen]
  refine ⟨?_, ?_, ?_, ?_, ?_⟩
  · rw [hev]
    simp only [build_trace, io_calls_append, io_calls_stack_loop, io_calls_seg_loop]
    rw [loop_io_eq cfg _ _ _ _ hsN hlN _ (by rw [hN]; exact hnN)
        (by rw [hN]; exact Nat.lt_trans (Nat.add_lt_add hvN hnN) (by decide))
        (by rw [hN]; exact hseekN),
      loop_io_eq cfg _ _ _ _ hsM hlM _ (by rw [hM]; exact hnM)
        (by rw [hM]; exact Nat.lt_trans (Nat.add_lt_add hvM hnM) (by decide))
        (by rw [hM]; exact hseekM), hN, hM]
    simp [io_calls]
  · intro k hk
    rw [hroc k (Nat.lt_of_lt_of_le hk hcovN), if_pos hk]
  · intro k hk1 hk2
    rw [hroc k hk2, if_neg (Nat.not_lt.mpr hk1)]
  · intro k hk
    rw [hrwc k (Nat.lt_of_lt_of_le hk hcovM), if_pos hk]
  · intro k hk1 hk2
    rw [hrwc k hk2, if_neg (Nat.not_lt.mpr hk1)]

/-- The small scenario builds successfully. -/
theorem small_scenario_succeeds :
    ∃ r, setup_new_process cfg1 0 "prog" [] 0 0 s1 = some r ∧ r.ret = 0 := by
  have h : (setup_new_process cfg1 0 "prog" [] 0 0 s1).map (fun r => r.ret) = some 0 := by
    rfl
  cases hr : setup_new_process cfg1 0 "prog" [] 0 0 s1 with
  | none => rw [hr] at h; exact Option.noConfusion h
  | some r =>
    rw [hr] at h
    exact ⟨r, rfl, Option.some.inj h⟩

theorem setup_new_process_segment_contents_witness :
    seg_fits cfg1 elf1.ro_vaddr elf1.ro_size elf1.ro_location elf1.ro_pages ∧
    seg_fits cfg1 elf1.rw_vaddr elf1.rw_size elf1.rw_location elf1.rw_pages ∧
    elf1.ro_size ≤ elf1.ro_pages * cfg1.PAGE_SIZE ∧
    elf1.rw_size ≤ elf1.rw_pages * cfg1.PAGE_SIZE ∧
    (∀ k, k < elf1.ro_pages * cfg1.PAGE_SIZE →
      ∀ j, j < cfg1.CONFIG_USERLAND_STACK_SIZE.toNat →
      (elf1.ro_vaddr + k) / cfg1.PAGE_SIZE ≠ stack_vaddr cfg1 j / cfg1.PAGE_SIZE) ∧
    (∀ k, k < elf1.rw_pages * cfg1.PAGE_SIZE →
      ∀ j, j < cfg1.CONFIG_USERLAND_STACK_SIZE.toNat →
      (elf1.rw_vaddr + k) / cfg1.PAGE_SIZE ≠ stack_vaddr cfg1 j / cfg1.PAGE_SIZE) ∧
    (∀ k, k < elf1.ro_pages * cfg1.PAGE_SIZE →
      ∀ k', k' < elf1.rw_pages * cfg1.PAGE_SIZE → elf1.ro_vaddr + k ≠ elf1.rw_vaddr + k') ∧
    ∃ r, setup_new_process cfg1 0 "prog" [] 0 0 s1 = some r ∧ r.ret = 0 ∧
      (∀ k, k < 12 →
        vm_load cfg1 r.st (r.st.thread_table 0).pagetable (64 + k) = some (8 + k + 1)) ∧
      (∀ k, 12 ≤ k → k < 16 →
        vm_load cfg1 r.st (r.st.thread_table 0).pagetable (64 + k) = some 0) :=
  have hN : seg_fits cfg1 elf1.ro_vaddr elf1.ro_size elf1.ro_location elf1.ro_pages := by
    unfold seg_fits; decide
  have hM : seg_fits cfg1 elf1.rw_vaddr elf1.rw_size elf1.rw_location elf1.rw_pages := by
    unfold seg_fits; decide
  have h1 : ∀ k, k < elf1.ro_pages * cfg1.PAGE_SIZE →
      ∀ j, j < cfg1.CONFIG_USERLAND_STACK_SIZE.toNat →
      (elf1.ro_vaddr + k) / cfg1.PAGE_SIZE ≠ stack_vaddr cfg1 j / cfg1.PAGE_SIZE := by
    decide
  have h2 : ∀ k, k < elf1.rw_pages * cfg1.PAGE_SIZE →
      ∀ j, j < cfg1.CONFIG_USERLAND_STACK_SIZE.toNat →
      (elf1.rw_vaddr + k) / cfg1.PAGE_SIZE ≠ stack_vaddr cfg1 j / cfg1.PAGE_SIZE := by
    decide
  have h3 : ∀ k, k < elf1.ro_pages * cfg1.PAGE_SIZE →
      ∀ k', k' < elf1.rw_pages * cfg1.PAGE_SIZE →
      elf1.ro_vaddr + k ≠ elf1.rw_vaddr + k' := by
    decide
  ⟨hN, hM, by decide, by decide, h1, h2, h3,
    match small_scenario_succeeds with
    | ⟨r, h, hret⟩ =>
      match setup_new_process_segment_contents cfg1 0 "prog" [] 0 0 s1 r file1 elf1 rfl rfl
        h hret hN hM (by decide) (by decide) h1 h2 h3 with
      | ⟨_, c1, c2, _, _⟩ => ⟨r, h, hret, c1, c2⟩⟩

end Kudos
